import Mathlib

/-!
A shallow embedding of the hospital-resident matching game of this
repository (`src/matching/games/hospital_resident.py`), together with the
parts of the package that file relies on (the player store, the base-game
input checks and the deferred-acceptance algorithm). Pieces whose code is
not part of this repository are modelled from the specification and are
marked as such in their doc comments.
-/

namespace HR

/-- A resident (`matching.Player`): a name, the ranked hospital names
(most preferred first) and the current match, if any. -/
structure Resident where
  name : String
  prefs : List String
  matching : Option String := none
  deriving DecidableEq

/-- A hospital (`matching.players.Hospital`): a name, an integer capacity,
the ranked resident names and the set of residents currently held. -/
structure Hospital where
  name : String
  capacity : Int
  prefs : List String
  matching : List String := []
  deriving DecidableEq

/-- Modelled from the spec: the Participant Store preference-order
comparison (`Player.prefers`, not under `src/`): a participant prefers `a`
to `b` when `a` appears strictly earlier in its preference list. -/
def prefersIn (prefs : List String) (a b : String) : Bool :=
  decide (prefs.indexOf a < prefs.indexOf b)

/-- The game state (`HospitalResident`): the two player collections, the
`clean` flag, the stored matching and the recorded blocking pairs. -/
structure HospitalResident where
  residents : List Resident
  hospitals : List Hospital
  clean : Bool := false
  matching : Option (List (String × List String)) := none
  blocking_pairs : Option (List (String × String)) := none
  deriving DecidableEq

/-- `_check_mutual_preference` (src lines 223 to 226): the two players each
rank the other. -/
def check_mutual_preference (r : Resident) (h : Hospital) : Bool :=
  decide (r.name ∈ h.prefs) && decide (h.name ∈ r.prefs)

/-- `_check_resident_unhappy` (src lines 229 to 235): the resident is
unmatched or prefers the hospital to its current match. -/
def check_resident_unhappy (r : Resident) (h : Hospital) : Bool :=
  match r.matching with
  | none => true
  | some m => prefersIn r.prefs h.name m

/-- `_check_hospital_unhappy` (src lines 238 to 245): the hospital is
under-subscribed or prefers the resident to at least one current match. -/
def check_hospital_unhappy (r : Resident) (h : Hospital) : Bool :=
  decide ((h.matching.length : Int) < h.capacity)
    || h.matching.any (fun m => prefersIn h.prefs r.name m)

/-- `HospitalResident.check_stability` (src lines 135 to 150): collect every
resident-hospital pair meeting all three blocking conditions, record the
list, and report stability as the absence of such pairs. -/
def HospitalResident.check_stability (g : HospitalResident) :
    HospitalResident × Bool :=
  let bps := (g.residents.map (fun r =>
    (g.hospitals.filter (fun h =>
      check_mutual_preference r h && check_resident_unhappy r h &&
        check_hospital_unhappy r h)).map (fun h => (r.name, h.name)))).flatten
  ({ g with blocking_pairs := some bps }, bps.isEmpty)

/-- The mutual-preference blocking condition, stated at the `Prop` level:
each player appears in the preference list of the other. -/
def MutualPref (r : Resident) (h : Hospital) : Prop :=
  r.name ∈ h.prefs ∧ h.name ∈ r.prefs

/-- The resident side of a blocking pair, stated at the `Prop` level: the
resident is unmatched or ranks the hospital strictly above its match. -/
def ResidentUnhappy (r : Resident) (h : Hospital) : Prop :=
  r.matching = none ∨
    ∃ m, r.matching = some m ∧ r.prefs.indexOf h.name < r.prefs.indexOf m

/-- The hospital side of a blocking pair, stated at the `Prop` level: the
hospital is under capacity or ranks the resident strictly above at least
one of its current matches. -/
def HospitalUnhappy (r : Resident) (h : Hospital) : Prop :=
  ((h.matching.length : Int) < h.capacity) ∨
    ∃ m ∈ h.matching, h.prefs.indexOf r.name < h.prefs.indexOf m

/-- A blocking pair, stated at the `Prop` level. -/
def Blocking (r : Resident) (h : Hospital) : Prop :=
  MutualPref r h ∧ ResidentUnhappy r h ∧ HospitalUnhappy r h

/-! ## Validity checking -/

/-- Modelled from the spec: `Player.check_if_match_is_unacceptable` with
`unmatched_okay=True` for a resident (code not under `src/`): being
unmatched is acceptable; being matched outside the own preference list
yields one issue string. -/
def Resident.unacceptable_issues (r : Resident) : List String :=
  match r.matching with
  | none => []
  | some m =>
      if m ∈ r.prefs then []
      else [r.name ++ " is matched to " ++ m ++
        " but they do not appear in their preference list."]

/-- Modelled from the spec: `Hospital.check_if_match_is_unacceptable` (code
not under `src/`): one issue string per held resident that does not appear
in the hospital preference list. -/
def Hospital.unacceptable_issues (h : Hospital) : List String :=
  (h.matching.filter (fun m => decide (m ∉ h.prefs))).map (fun m =>
    h.name ++ " is matched to " ++ m ++
      " but they do not appear in their preference list.")

/-- Modelled from the spec: `Hospital.check_if_oversubscribed` (code not
under `src/`): an issue string when the hospital holds more matches than
its capacity. -/
def Hospital.check_if_oversubscribed (h : Hospital) : Option String :=
  if h.capacity < (h.matching.length : Int) then
    some (h.name ++ " is over-subscribed.")
  else none

/-- `HospitalResident._check_for_unacceptable_matches` (src lines 110 to
122), for the resident party. -/
def HospitalResident.check_for_unacceptable_matches_residents
    (g : HospitalResident) : List String :=
  (g.residents.map Resident.unacceptable_issues).flatten

/-- `HospitalResident._check_for_unacceptable_matches` (src lines 110 to
122), for the hospital party. -/
def HospitalResident.check_for_unacceptable_matches_hospitals
    (g : HospitalResident) : List String :=
  (g.hospitals.map Hospital.unacceptable_issues).flatten

/-- `HospitalResident._check_for_oversubscribed_players` (src lines 124 to
133), for the hospital party. -/
def HospitalResident.check_for_oversubscribed_players
    (g : HospitalResident) : List String :=
  g.hospitals.filterMap Hospital.check_if_oversubscribed

/-- The structured error of `check_validity` (`MatchingError`), carrying
both defect lists. -/
structure MatchingError where
  unacceptable_matches : List String
  oversubscribed_hospitals : List String
  deriving DecidableEq

/-- `HospitalResident.check_validity` (src lines 91 to 108): aggregate the
unacceptable-match issues of both parties and the oversubscription issues;
raise one structured error when any issue exists, succeed otherwise. -/
def HospitalResident.check_validity (g : HospitalResident) :
    Except MatchingError Bool :=
  let unacceptable_issues := g.check_for_unacceptable_matches_residents ++
    g.check_for_unacceptable_matches_hospitals
  let oversubscribed_issues := g.check_for_oversubscribed_players
  if unacceptable_issues.isEmpty && oversubscribed_issues.isEmpty then
    .ok true
  else
    .error ⟨unacceptable_issues, oversubscribed_issues⟩

/-- The concrete game of C8: one hospital of capacity 1 artificially
assigned two residents, with no other defect. -/
def oversubGame : HospitalResident :=
  { residents := [⟨"R1", ["H1"], some "H1"⟩, ⟨"R2", ["H1"], some "H1"⟩],
    hospitals := [⟨"H1", 1, ["R1", "R2"], ["R1", "R2"]⟩] }

/-! ## Input checking (the sanitizer) -/

/-- The two non-fatal diagnostics: `PreferencesChangedWarning` (carrying
its message) and `PlayerExcludedWarning` (carrying the player). -/
inductive HRWarning where
  | prefsChanged (msg : String)
  | playerExcluded (name : String)
  deriving DecidableEq

/-- First-seen-order deduplication of a preference list. -/
def dedupFirst : List String → List String
  | [] => []
  | x :: xs => x :: (dedupFirst xs).filter (fun y => !(y == x))

/-- The warning drawn by a participant that ranks some counterpart more
than once. -/
def uniqueWarnings (who : String) (prefs : List String) : List HRWarning :=
  if dedupFirst prefs == prefs then []
  else [.prefsChanged (who ++ " has ranked a player multiple times.")]

/-- Modelled from the spec: `BaseGame._check_inputs_player_prefs_unique`
(code not under `src/`) for the resident party: warn about duplicated
preference entries; in clean mode deduplicate keeping first-seen order. -/
def check_inputs_player_prefs_unique_residents (g : HospitalResident) :
    HospitalResident × List HRWarning :=
  ({ g with residents := if g.clean then
      g.residents.map (fun r => { r with prefs := dedupFirst r.prefs })
    else g.residents },
   (g.residents.map (fun r => uniqueWarnings r.name r.prefs)).flatten)

/-- Modelled from the spec: `BaseGame._check_inputs_player_prefs_unique`
(code not under `src/`) for the hospital party. -/
def check_inputs_player_prefs_unique_hospitals (g : HospitalResident) :
    HospitalResident × List HRWarning :=
  ({ g with hospitals := if g.clean then
      g.hospitals.map (fun h => { h with prefs := dedupFirst h.prefs })
    else g.hospitals },
   (g.hospitals.map (fun h => uniqueWarnings h.name h.prefs)).flatten)

/-- The warnings drawn by a participant that ranks somebody outside the
opposite party. -/
def inPartyWarnings (who : String) (prefs partyNames : List String) :
    List HRWarning :=
  (prefs.filter (fun n => !(partyNames.contains n))).map (fun n =>
    .prefsChanged (who ++ " has ranked the non-player " ++ n ++ "."))

/-- Modelled from the spec:
`BaseGame._check_inputs_player_prefs_all_in_party` (code not under `src/`)
for the resident party: warn about dangling preference entries; in clean
mode remove them. -/
def check_inputs_player_prefs_all_in_party_residents (g : HospitalResident) :
    HospitalResident × List HRWarning :=
  let hnames := g.hospitals.map Hospital.name
  ({ g with residents := if g.clean then
      g.residents.map (fun r =>
        { r with prefs := r.prefs.filter (fun n => hnames.contains n) })
    else g.residents },
   (g.residents.map (fun r => inPartyWarnings r.name r.prefs hnames)).flatten)

/-- Modelled from the spec:
`BaseGame._check_inputs_player_prefs_all_in_party` (code not under `src/`)
for the hospital party. -/
def check_inputs_player_prefs_all_in_party_hospitals (g : HospitalResident) :
    HospitalResident × List HRWarning :=
  let rnames := g.residents.map Resident.name
  ({ g with hospitals := if g.clean then
      g.hospitals.map (fun h =>
        { h with prefs := h.prefs.filter (fun n => rnames.contains n) })
    else g.hospitals },
   (g.hospitals.map (fun h => inPartyWarnings h.name h.prefs rnames)).flatten)

/-- The preference list of the resident with the given name (empty when no
such resident is in the game). -/
def residentPrefsIn (residents : List Resident) (rn : String) : List String :=
  ((residents.find? (fun r => r.name == rn)).map Resident.prefs).getD []

/-- The inner loop of `_check_inputs_player_prefs_all_reciprocated` for one
hospital: walk the preference list as it was when the loop started; every
entry naming a resident that does not rank the hospital back draws a
warning and, in clean mode, is forgotten (`Player._forget`, an erase of
its first occurrence) from the current list. -/
def reciprocatedScan (residents : List Resident) (clean : Bool)
    (h : Hospital) : List String × List HRWarning :=
  h.prefs.foldl (fun acc rn =>
    if (residentPrefsIn residents rn).contains h.name then acc
    else ((if clean then acc.1.erase rn else acc.1),
          acc.2 ++ [.prefsChanged (h.name ++ " ranked " ++ rn ++
            " but they did not.")]))
    (h.prefs, [])

/-- `HospitalResident._check_inputs_player_prefs_all_reciprocated` (src
lines 173 to 187), called on the hospital party: each hospital scans its
own preference list and, in clean mode, forgets every entry that is not
reciprocated. -/
def check_inputs_player_prefs_all_reciprocated (g : HospitalResident) :
    HospitalResident × List HRWarning :=
  ({ g with hospitals := g.hospitals.map (fun h =>
      { h with prefs := (reciprocatedScan g.residents g.clean h).1 }) },
   (g.hospitals.map (fun h =>
      (reciprocatedScan g.residents g.clean h).2)).flatten)

/-- `Player._forget` applied through the resident collection: the resident
with the given name drops the hospital name (first occurrence) from its
preference list. -/
def forgetHospital (hn rn : String) (residents : List Resident) :
    List Resident :=
  residents.map (fun r =>
    if r.name == rn then { r with prefs := r.prefs.erase hn } else r)

/-- The body of `_check_inputs_player_reciprocated_all_prefs` for one
hospital: among the residents that rank it (computed before any of this
round of repairs), each one the hospital does not rank back draws a
warning and, in clean mode, forgets the hospital. -/
def reciprocatedAllScan (h : Hospital) (clean : Bool)
    (residents : List Resident) : List Resident × List HRWarning :=
  let others_that_ranked := residents.filter (fun r => r.prefs.contains h.name)
  others_that_ranked.foldl (fun acc r =>
    if h.prefs.contains r.name then acc
    else ((if clean then forgetHospital h.name r.name acc.1 else acc.1),
          acc.2 ++ [.prefsChanged (r.name ++ " ranked " ++ h.name ++
            " but they did not.")]))
    (residents, [])

/-- `HospitalResident._check_inputs_player_reciprocated_all_prefs` (src
lines 189 to 208), called with the hospital party against the residents:
hospitals are processed in order, threading the resident state. -/
def check_inputs_player_reciprocated_all_prefs (g : HospitalResident) :
    HospitalResident × List HRWarning :=
  let out := g.hospitals.foldl (fun acc h =>
    let s := reciprocatedAllScan h g.clean acc.1
    (s.1, acc.2 ++ s.2)) (g.residents, ([] : List HRWarning))
  ({ g with residents := out.1 }, out.2)

/-- Modelled from the spec: the empty-preference check
(`BaseGame._check_inputs_player_prefs_nonempty`, code not under `src/`):
detection only, surfacing a warning for every participant that ranks
nobody; the two src calls cover the residents first, then the hospitals. -/
def check_inputs_player_prefs_nonempty (g : HospitalResident) :
    HospitalResident × List HRWarning :=
  (g, (g.residents.filter (fun r => r.prefs.isEmpty)).map (fun r =>
        HRWarning.playerExcluded r.name)
    ++ (g.hospitals.filter (fun h => h.prefs.isEmpty)).map (fun h =>
        HRWarning.playerExcluded h.name))

/-- `HospitalResident._check_inputs_player_capacity` (src lines 210 to
220), with `BaseGame._remove_player` modelled from the spec (code not
under `src/`): a hospital with capacity below one draws a warning and, in
clean mode, is removed from the game and forgotten from every resident
preference list. -/
def check_inputs_player_capacity (g : HospitalResident) :
    HospitalResident × List HRWarning :=
  let bad := g.hospitals.filter (fun h => decide (h.capacity < 1))
  (if g.clean then
    { g with
      hospitals := g.hospitals.filter (fun h => !(decide (h.capacity < 1))),
      residents := g.residents.map (fun r =>
        { r with prefs := (bad.map Hospital.name).foldl List.erase r.prefs }) }
  else g,
   bad.map (fun h => HRWarning.playerExcluded h.name))

/-- `HospitalResident.check_inputs` (src lines 152 to 171): the nine check
calls in source order, threading the game state and concatenating the
warnings. -/
def HospitalResident.check_inputs (g : HospitalResident) :
    HospitalResident × List HRWarning :=
  let s1 := check_inputs_player_prefs_unique_residents g
  let s2 := check_inputs_player_prefs_unique_hospitals s1.1
  let s3 := check_inputs_player_prefs_all_in_party_residents s2.1
  let s4 := check_inputs_player_prefs_all_in_party_hospitals s3.1
  let s5 := check_inputs_player_prefs_all_reciprocated s4.1
  let s6 := check_inputs_player_reciprocated_all_prefs s5.1
  let s7 := check_inputs_player_prefs_nonempty s6.1
  let s8 := check_inputs_player_capacity s7.1
  (s8.1, s1.2 ++ s2.2 ++ s3.2 ++ s4.2 ++ s5.2 ++ s6.2 ++ s7.2 ++ s8.2)

/-- The warnings drawn in `_check_inputs_player_prefs_all_reciprocated` by
one hospital: one per preference entry naming a resident that does not
rank the hospital back. -/
def reciprocatedWarnings (residents : List Resident) (h : Hospital) :
    List HRWarning :=
  (h.prefs.filter (fun rn =>
    !((residentPrefsIn residents rn).contains h.name))).map (fun rn =>
      .prefsChanged (h.name ++ " ranked " ++ rn ++ " but they did not."))

/-- The warnings drawn in `_check_inputs_player_reciprocated_all_prefs` by
one hospital: one per resident that ranks it and is not ranked back. -/
def reciprocatedAllWarnings (residents : List Resident) (h : Hospital) :
    List HRWarning :=
  ((residents.filter (fun r => r.prefs.contains h.name)).filter (fun r =>
    !(h.prefs.contains r.name))).map (fun r =>
      .prefsChanged (r.name ++ " ranked " ++ h.name ++ " but they did not."))

/-- Every defect detected on one (unmodified) game state: the warning
lists of the nine checks of `check_inputs`, each computed against this
same state. -/
def detectedWarnings (g : HospitalResident) : List HRWarning :=
  (g.residents.map (fun r => uniqueWarnings r.name r.prefs)).flatten
  ++ (g.hospitals.map (fun h => uniqueWarnings h.name h.prefs)).flatten
  ++ (g.residents.map (fun r =>
      inPartyWarnings r.name r.prefs (g.hospitals.map Hospital.name))).flatten
  ++ (g.hospitals.map (fun h =>
      inPartyWarnings h.name h.prefs (g.residents.map Resident.name))).flatten
  ++ (g.hospitals.map (fun h => reciprocatedWarnings g.residents h)).flatten
  ++ (g.hospitals.map (fun h => reciprocatedAllWarnings g.residents h)).flatten
  ++ ((g.residents.filter (fun r => r.prefs.isEmpty)).map (fun r =>
      HRWarning.playerExcluded r.name)
    ++ (g.hospitals.filter (fun h => h.prefs.isEmpty)).map (fun h =>
      HRWarning.playerExcluded h.name))
  ++ (g.hospitals.filter (fun h => decide (h.capacity < 1))).map (fun h =>
      HRWarning.playerExcluded h.name)

/-- The constructor (src lines 54 to 65): deep-copy the caller collections
(the identity on values), store them with the `clean` flag, and run
`check_inputs`; the pair also returns the warnings surfaced. -/
def HospitalResident.init (residents : List Resident)
    (hospitals : List Hospital) (clean : Bool) :
    HospitalResident × List HRWarning :=
  HospitalResident.check_inputs
    { residents := residents, hospitals := hospitals, clean := clean }

/-- The game state just before the empty-preference check runs inside
`check_inputs`: after the uniqueness, dangling-entry and reciprocity
passes, before the capacity pass. -/
def sanitizedBeforeNonempty (g : HospitalResident) : HospitalResident :=
  (check_inputs_player_reciprocated_all_prefs
    (check_inputs_player_prefs_all_reciprocated
      (check_inputs_player_prefs_all_in_party_hospitals
        (check_inputs_player_prefs_all_in_party_residents
          (check_inputs_player_prefs_unique_hospitals
            (check_inputs_player_prefs_unique_residents g).1).1).1).1).1).1

/-- The survival test applied to a resident preference entry by the second
reciprocity pass: the entry survives unless it names a hospital of the
given collection that does not rank the resident back. -/
def keepB (hs : List Hospital) (rn hn : String) : Bool :=
  match hs.find? (fun h => h.name == hn) with
  | none => true
  | some h => h.prefs.contains rn

/-- The net per-resident repair of one round of the second reciprocity
pass: a resident that ranks the hospital without being ranked back forgets
it. -/
def eraseIfUnreciprocated (h : Hospital) (x : Resident) : Resident :=
  if x.prefs.contains h.name = true ∧ ¬(h.prefs.contains x.name = true)
    then { x with prefs := x.prefs.erase h.name } else x

/-- The game state after the two uniqueness checks of `check_inputs`. -/
def stateAfterUnique (g : HospitalResident) : HospitalResident :=
  (check_inputs_player_prefs_unique_hospitals
    (check_inputs_player_prefs_unique_residents g).1).1

/-- The game state after the uniqueness and dangling-entry checks of
`check_inputs`. -/
def stateAfterInParty (g : HospitalResident) : HospitalResident :=
  (check_inputs_player_prefs_all_in_party_hospitals
    (check_inputs_player_prefs_all_in_party_residents
      (stateAfterUnique g)).1).1

/-! ## Construction from dictionaries -/

/-- A name-keyed dictionary lookup (`dict[key]` in Python), `none` meaning
a `KeyError`. -/
def dictGet (d : List (String × α)) (n : String) : Option α :=
  (d.find? (fun p => p.1 == n)).map (fun p => p.2)

/-- `_make_instances` (src lines 270 to 283): create a resident for every
key of `resident_prefs` and a hospital for every key of `hospital_prefs`,
looking its capacity up in `capacities` (a missing capacity key is a
`KeyError`). -/
def make_instances (resident_prefs hospital_prefs : List (String × List String))
    (capacities : List (String × Int)) :
    Option (List (String × Resident) × List (String × Hospital)) :=
  (hospital_prefs.mapM (fun p => (dictGet capacities p.1).map (fun c =>
      (p.1, Hospital.mk p.1 c [] [])))).map (fun hospital_dict =>
    (resident_prefs.map (fun p => (p.1, Resident.mk p.1 [] none)),
     hospital_dict))

/-- The resident-side half of the preference wiring of `_make_players`
(src lines 256 to 258): resolve every ranked hospital name in the hospital
dictionary (a missing name is a `KeyError`, modelled as `none`). -/
def buildResident (hospital_dict : List (String × Hospital))
    (p : String × List String) : Option Resident :=
  (p.2.mapM (fun n => (dictGet hospital_dict n).map (fun _ => n))).map
    (fun prefs => Resident.mk p.1 prefs none)

/-- The hospital-side half of the preference wiring of `_make_players`:
resolve every ranked resident name in the resident dictionary (a missing
name is a `KeyError`). -/
def buildHospital (resident_dict : List (String × Resident))
    (hospital_dict : List (String × Hospital))
    (p : String × List String) : Option Hospital := do
  let prefs ← p.2.mapM (fun n => (dictGet resident_dict n).map (fun _ => n))
  let h ← dictGet hospital_dict p.1
  pure (Hospital.mk p.1 h.capacity prefs [])

/-- `_make_players` (src lines 248 to 267): build the instances, then wire
each preference list by dictionary lookups; any name absent from the
opposite dictionary is a `KeyError` (`none`). -/
def make_players (resident_prefs hospital_prefs : List (String × List String))
    (capacities : List (String × Int)) :
    Option (List Resident × List Hospital) := do
  let (resident_dict, hospital_dict) ←
    make_instances resident_prefs hospital_prefs capacities
  let residents ← resident_prefs.mapM (buildResident hospital_dict)
  let hospitals ← hospital_prefs.mapM (buildHospital resident_dict hospital_dict)
  pure (residents, hospitals)

/-- `HospitalResident.create_from_dictionaries` (src lines 67 to 80):
build the players from the dictionaries, then construct the game; a
key-lookup failure while building the players aborts before any input
checking runs. -/
def create_from_dictionaries
    (resident_prefs hospital_prefs : List (String × List String))
    (capacities : List (String × Int)) (clean : Bool) :
    Option (HospitalResident × List HRWarning) :=
  (make_players resident_prefs hospital_prefs capacities).map (fun ps =>
    HospitalResident.init ps.1 ps.2 clean)

/-! ## The deferred-acceptance matching engine -/

/-- The orientation flag of `solve` (src line 82): resident-optimal or
hospital-optimal deferred acceptance. -/
inductive Optimal where
  | resident
  | hospital
  deriving DecidableEq

/-- The data the algorithm reads from a game: the player names, the
preference lists indexed by name, and the hospital capacities. -/
structure AlgCtx where
  resNames : List String
  hosNames : List String
  rprefs : String → List String
  hprefs : String → List String
  capacity : String → Int

/-- Pointwise function update at one name. -/
def upd {α : Type} (f : String → α) (a : String) (v : α) : String → α :=
  fun x => if x = a then v else f x

/-- The algorithm context of a game. -/
def ctxOf (g : HospitalResident) : AlgCtx :=
  { resNames := g.residents.map Resident.name,
    hosNames := g.hospitals.map Hospital.name,
    rprefs := fun n => ((g.residents.find? (fun r => r.name == n)).map
      Resident.prefs).getD [],
    hprefs := fun n => ((g.hospitals.find? (fun h => h.name == n)).map
      Hospital.prefs).getD [],
    capacity := fun n => ((g.hospitals.find? (fun h => h.name == n)).map
      Hospital.capacity).getD 0 }

/-- The state of the resident-oriented algorithm: every resident carries a
pointer into its preference list (the next hospital to propose to) and an
optional hold; every hospital carries the set of residents it holds. -/
structure ROState where
  idx : String → Nat
  rmatch : String → Option String
  held : String → List String

/-- The least-preferred entry of a held set, judged by the given
preference list. -/
def worstOf (prefs : List String) : List String → String
  | [] => ""
  | x :: xs => xs.foldl (fun acc y =>
      if prefs.indexOf acc < prefs.indexOf y then y else acc) x

/-- The first unmatched resident that still has hospitals to propose to. -/
def findEligibleRO (C : AlgCtx) (σ : ROState) : Option String :=
  C.resNames.find? (fun rn => (σ.rmatch rn).isNone &&
    decide (σ.idx rn < (C.rprefs rn).length))

/-- Modelled from the spec: one proposal round of the resident-oriented
deferred-acceptance procedure (`matching.algorithms.hospital_resident`,
code not under `src/`): an unmatched resident with a non-empty remaining
list proposes to its most-preferred hospital not yet proposed to; the
hospital accepts while under capacity, and otherwise retains the better of
the proposer and its worst held resident, rejecting the other. -/
def stepRO (C : AlgCtx) (σ : ROState) : Option ROState :=
  match findEligibleRO C σ with
  | none => none
  | some rn =>
    let hn := (C.rprefs rn).getD (σ.idx rn) ""
    let idx2 := upd σ.idx rn (σ.idx rn + 1)
    if ((σ.held hn).length : Int) < C.capacity hn then
      some { idx := idx2, rmatch := upd σ.rmatch rn (some hn),
             held := upd σ.held hn (rn :: σ.held hn) }
    else
      let wn := worstOf (C.hprefs hn) (σ.held hn)
      if prefersIn (C.hprefs hn) rn wn then
        some { idx := idx2,
               rmatch := upd (upd σ.rmatch wn none) rn (some hn),
               held := upd σ.held hn (rn :: (σ.held hn).erase wn) }
      else
        some { idx := idx2, rmatch := σ.rmatch, held := σ.held }

/-- Run the resident-oriented procedure on the given fuel. -/
def runRO (C : AlgCtx) : Nat → ROState → ROState
  | 0, σ => σ
  | n + 1, σ =>
    match stepRO C σ with
    | none => σ
    | some σ2 => runRO C n σ2

/-- The termination measure: the total number of proposals still open. -/
def measureRO (C : AlgCtx) (σ : ROState) : Nat :=
  (C.resNames.map (fun rn => (C.rprefs rn).length - σ.idx rn)).sum

/-- The starting state: nobody matched, nobody proposed to. -/
def initRO : ROState :=
  { idx := fun _ => 0, rmatch := fun _ => none, held := fun _ => [] }

/-- The resident-oriented algorithm run to completion. -/
def solveRO (C : AlgCtx) : ROState :=
  runRO C (measureRO C initRO) initRO

/-- The state of the hospital-oriented algorithm: every hospital carries a
pointer into its preference list, and the holds are as in `ROState`. -/
structure HOState where
  hidx : String → Nat
  rmatch : String → Option String
  held : String → List String

/-- The first under-subscribed hospital that still has residents to
propose to. -/
def findEligibleHO (C : AlgCtx) (σ : HOState) : Option String :=
  C.hosNames.find? (fun hn =>
    decide (((σ.held hn).length : Int) < C.capacity hn) &&
    decide (σ.hidx hn < (C.hprefs hn).length))

/-- Modelled from the spec: one proposal round of the hospital-oriented
deferred-acceptance procedure (code not under `src/`): a hospital with
spare capacity proposes to its most-preferred resident not yet proposed
to; the resident always holds the best offer received so far, displacing a
previously held hospital only for a strictly better one. -/
def stepHO (C : AlgCtx) (σ : HOState) : Option HOState :=
  match findEligibleHO C σ with
  | none => none
  | some hn =>
    let rn := (C.hprefs hn).getD (σ.hidx hn) ""
    let idx2 := upd σ.hidx hn (σ.hidx hn + 1)
    match σ.rmatch rn with
    | none =>
      some { hidx := idx2, rmatch := upd σ.rmatch rn (some hn),
             held := upd σ.held hn (rn :: σ.held hn) }
    | some hOld =>
      if prefersIn (C.rprefs rn) hn hOld then
        some { hidx := idx2, rmatch := upd σ.rmatch rn (some hn),
               held := upd (upd σ.held hOld ((σ.held hOld).erase rn)) hn
                 (rn :: σ.held hn) }
      else
        some { hidx := idx2, rmatch := σ.rmatch, held := σ.held }

/-- Run the hospital-oriented procedure on the given fuel. -/
def runHO (C : AlgCtx) : Nat → HOState → HOState
  | 0, σ => σ
  | n + 1, σ =>
    match stepHO C σ with
    | none => σ
    | some σ2 => runHO C n σ2

/-- The termination measure for the hospital-oriented procedure. -/
def measureHO (C : AlgCtx) (σ : HOState) : Nat :=
  (C.hosNames.map (fun hn => (C.hprefs hn).length - σ.hidx hn)).sum

/-- The starting state of the hospital-oriented procedure. -/
def initHO : HOState :=
  { hidx := fun _ => 0, rmatch := fun _ => none, held := fun _ => [] }

/-- The hospital-oriented algorithm run to completion. -/
def solveHO (C : AlgCtx) : HOState :=
  runHO C (measureHO C initHO) initHO

/-- `HospitalResident.solve` (src lines 82 to 89): run the selected
orientation of the algorithm, write the matches back onto the players and
store the hospital-to-residents matching. -/
def HospitalResident.solve (g : HospitalResident) (opt : Optimal) :
    HospitalResident :=
  let C := ctxOf g
  let res : (String → Option String) × (String → List String) :=
    match opt with
    | .resident => ((solveRO C).rmatch, (solveRO C).held)
    | .hospital => ((solveHO C).rmatch, (solveHO C).held)
  { g with
    residents := g.residents.map (fun r =>
      { r with matching := res.1 r.name }),
    hospitals := g.hospitals.map (fun h =>
      { h with matching := res.2 h.name }),
    matching := some (g.hospitals.map (fun h => (h.name, res.2 h.name))) }

/-- A well-formed instance: distinct player names, duplicate-free
preference lists, every preference entry mutually reciprocated, and every
capacity at least one. -/
def WFGame (g : HospitalResident) : Prop :=
  (g.residents.map Resident.name).Nodup ∧
  (g.hospitals.map Hospital.name).Nodup ∧
  (∀ r ∈ g.residents, r.prefs.Nodup) ∧
  (∀ h ∈ g.hospitals, h.prefs.Nodup) ∧
  (∀ r ∈ g.residents, ∀ hn ∈ r.prefs,
    ∃ h ∈ g.hospitals, h.name = hn ∧ r.name ∈ h.prefs) ∧
  (∀ h ∈ g.hospitals, ∀ rn ∈ h.prefs,
    ∃ r ∈ g.residents, r.name = rn ∧ h.name ∈ r.prefs) ∧
  (∀ h ∈ g.hospitals, 1 ≤ h.capacity)

/-- The context-level well-formedness carried through the algorithm
proofs. -/
structure CtxWF (C : AlgCtx) : Prop where
  resNodup : C.resNames.Nodup
  hosNodup : C.hosNames.Nodup
  rprefsNodup : ∀ rn ∈ C.resNames, (C.rprefs rn).Nodup
  hprefsNodup : ∀ hn ∈ C.hosNames, (C.hprefs hn).Nodup
  recipR : ∀ rn ∈ C.resNames, ∀ hn ∈ C.rprefs rn,
    hn ∈ C.hosNames ∧ rn ∈ C.hprefs hn
  recipH : ∀ hn ∈ C.hosNames, ∀ rn ∈ C.hprefs hn,
    rn ∈ C.resNames ∧ hn ∈ C.rprefs rn
  capPos : ∀ hn ∈ C.hosNames, 1 ≤ C.capacity hn

/-- The invariant of the resident-oriented run: pointers stay in range,
holds are duplicate-free, within capacity and coherent with the resident
matches, every match was proposed, and every hospital that turned a
resident away is full with strictly better residents. -/
structure ROInv (C : AlgCtx) (σ : ROState) : Prop where
  idxLe : ∀ rn ∈ C.resNames, σ.idx rn ≤ (C.rprefs rn).length
  heldNodup : ∀ hn ∈ C.hosNames, (σ.held hn).Nodup
  heldCap : ∀ hn ∈ C.hosNames, ((σ.held hn).length : Int) ≤ C.capacity hn
  heldMem : ∀ hn ∈ C.hosNames, ∀ rn ∈ σ.held hn,
    rn ∈ C.resNames ∧ rn ∈ C.hprefs hn ∧ σ.rmatch rn = some hn
  matchMem : ∀ rn ∈ C.resNames, ∀ hn, σ.rmatch rn = some hn →
    hn ∈ C.hosNames ∧ rn ∈ σ.held hn ∧ hn ∈ C.rprefs rn ∧
      (C.rprefs rn).indexOf hn < σ.idx rn
  rejected : ∀ rn ∈ C.resNames, ∀ hn ∈ C.rprefs rn,
    (C.rprefs rn).indexOf hn < σ.idx rn → σ.rmatch rn ≠ some hn →
      C.capacity hn ≤ ((σ.held hn).length : Int) ∧
      ∀ mn ∈ σ.held hn,
        (C.hprefs hn).indexOf mn < (C.hprefs hn).indexOf rn

/-- The invariant of the hospital-oriented run: pointers stay in range,
holds are duplicate-free, within capacity and coherent with the resident
matches, every hold was proposed, and every resident a hospital has
proposed to holds that hospital or one the resident strictly prefers. -/
structure HOInv (C : AlgCtx) (σ : HOState) : Prop where
  hidxLe : ∀ hn ∈ C.hosNames, σ.hidx hn ≤ (C.hprefs hn).length
  heldNodup : ∀ hn ∈ C.hosNames, (σ.held hn).Nodup
  heldCap : ∀ hn ∈ C.hosNames, ((σ.held hn).length : Int) ≤ C.capacity hn
  heldMem : ∀ hn ∈ C.hosNames, ∀ rn ∈ σ.held hn,
    rn ∈ C.resNames ∧ rn ∈ C.hprefs hn ∧ σ.rmatch rn = some hn ∧
      (C.hprefs hn).indexOf rn < σ.hidx hn
  matchMem : ∀ rn ∈ C.resNames, ∀ hn, σ.rmatch rn = some hn →
    hn ∈ C.hosNames ∧ rn ∈ σ.held hn ∧ hn ∈ C.rprefs rn
  proposed : ∀ hn ∈ C.hosNames, ∀ rn ∈ C.hprefs hn,
    (C.hprefs hn).indexOf rn < σ.hidx hn →
      ∃ h2, σ.rmatch rn = some h2 ∧
        (h2 = hn ∨ (C.rprefs rn).indexOf h2 < (C.rprefs rn).indexOf hn)

/-- A concrete well-formed two-by-two instance used to witness the
stability of the solver's output. -/
def g22 : HospitalResident :=
  { residents := [
      { name := "R1", prefs := ["H1", "H2"], matching := none },
      { name := "R2", prefs := ["H1", "H2"], matching := none }],
    hospitals := [
      { name := "H1", capacity := 1, prefs := ["R2", "R1"], matching := [] },
      { name := "H2", capacity := 1, prefs := ["R1", "R2"], matching := [] }],
    clean := false, matching := none, blocking_pairs := none }

/-- Modelled from the spec: a heap of Python player objects — resident and
hospital values stored at numeric addresses with a bump allocator — so
that aliasing between the caller's collections and the game instance, and
in-place mutation of the caller's objects, are expressible. -/
structure Heap where
  res : Nat → Resident
  hos : Nat → Hospital
  next : Nat

/-- Pointwise update of an address-indexed store. -/
def updNat {α : Type} (f : Nat → α) (a : Nat) (v : α) : Nat → α :=
  fun x => if x = a then v else f x

/-- In-place mutation of the resident object at an address (the caller
reassigning fields of one of its own objects). -/
def writeRes (σ : Heap) (a : Nat) (r : Resident) : Heap :=
  { σ with res := updNat σ.res a r }

/-- In-place mutation of the hospital object at an address. -/
def writeHos (σ : Heap) (a : Nat) (h : Hospital) : Heap :=
  { σ with hos := updNat σ.hos a h }

/-- Write a list of values at consecutive addresses. -/
def writeList {α : Type} : (Nat → α) → Nat → List α → (Nat → α)
  | f, _, [] => f
  | f, base, v :: vs => writeList (updNat f base v) (base + 1) vs

/-- A constructed game instance: the addresses of its own player objects
and the `clean` flag. -/
structure GameRef where
  resAddrs : List Nat
  hosAddrs : List Nat
  clean : Bool

/-- The constructor's copying step (src lines 54 to 65) under the heap
model: `copy.deepcopy` duplicates the caller's player values into fresh
addresses at and above `σ.next`, and the instance records only the fresh
addresses. -/
def constructGame (σ : Heap) (callerRes callerHos : List Nat)
    (clean : Bool) : GameRef × Heap :=
  let rs := callerRes.map σ.res
  let hs := callerHos.map σ.hos
  ({ resAddrs := (List.range rs.length).map (fun i => σ.next + i),
     hosAddrs := (List.range hs.length).map
       (fun i => σ.next + rs.length + i),
     clean := clean },
   { res := writeList σ.res σ.next rs,
     hos := writeList σ.hos (σ.next + rs.length) hs,
     next := σ.next + rs.length + hs.length })

/-- Reading the game instance back from the heap: the instance's own
player objects, fed through the embedded constructor. -/
def gameOf (σ : Heap) (ref : GameRef) : HospitalResident × List HRWarning :=
  HospitalResident.init (ref.resAddrs.map σ.res) (ref.hosAddrs.map σ.hos)
    ref.clean

/-- A concrete caller heap for the isolation witness: two caller objects
at addresses 0 and 1, allocator at 2. -/
def heap0 : Heap :=
  { res := fun _ => { name := "R1", prefs := ["H1"], matching := none },
    hos := fun _ => { name := "H1", capacity := 1, prefs := ["R1"],
                      matching := [] },
    next := 2 }

/-! ## Theorems -/

theorem check_mutual_preference_iff (r : Resident) (h : Hospital) :
    check_mutual_preference r h = true ↔ MutualPref r h := by
  simp [check_mutual_preference, MutualPref]

theorem check_resident_unhappy_iff (r : Resident) (h : Hospital) :
    check_resident_unhappy r h = true ↔ ResidentUnhappy r h := by
  cases hm : r.matching with
  | none => simp [check_resident_unhappy, ResidentUnhappy, hm]
  | some m => simp [check_resident_unhappy, ResidentUnhappy, hm, prefersIn]

theorem check_hospital_unhappy_iff (r : Resident) (h : Hospital) :
    check_hospital_unhappy r h = true ↔ HospitalUnhappy r h := by
  simp [check_hospital_unhappy, HospitalUnhappy, List.any_eq_true, prefersIn]

theorem blocking_bool_iff (r : Resident) (h : Hospital) :
    (check_mutual_preference r h && check_resident_unhappy r h &&
      check_hospital_unhappy r h) = true ↔ Blocking r h := by
  simp only [Bool.and_eq_true, Blocking, check_mutual_preference_iff,
    check_resident_unhappy_iff, check_hospital_unhappy_iff]
  tauto

theorem check_stability_pairs_mem (g : HospitalResident) (rn hn : String) :
    ((rn, hn) ∈ ((g.check_stability).1.blocking_pairs.getD []) ↔
      ∃ r ∈ g.residents, ∃ h ∈ g.hospitals,
        r.name = rn ∧ h.name = hn ∧ Blocking r h) := by
  simp only [HospitalResident.check_stability, Option.getD_some,
    List.mem_flatten, List.mem_map, List.mem_filter, Prod.mk.injEq,
    blocking_bool_iff, exists_exists_and_eq_and]
  tauto

/-- C2: `check_stability` returns `true` exactly when no resident-hospital
pair satisfies all three blocking conditions (mutual preference, resident
unhappy, hospital unhappy), and it records the complete list of such pairs
in `blocking_pairs`. -/
theorem check_stability_correct (g : HospitalResident) :
    ((g.check_stability).2 = true ↔
      ∀ r ∈ g.residents, ∀ h ∈ g.hospitals, ¬ Blocking r h) ∧
    ∃ l, (g.check_stability).1.blocking_pairs = some l ∧
      ((g.check_stability).2 = true ↔ l = []) ∧
      ∀ rn hn, ((rn, hn) ∈ l ↔
        ∃ r ∈ g.residents, ∃ h ∈ g.hospitals,
          r.name = rn ∧ h.name = hn ∧ Blocking r h) := by
  have hpairs := check_stability_pairs_mem g
  have hbp : ∃ l, (g.check_stability).1.blocking_pairs = some l := by
    simp [HospitalResident.check_stability]
  obtain ⟨l, hl⟩ := hbp
  have hmem : ∀ rn hn, ((rn, hn) ∈ l ↔
      ∃ r ∈ g.residents, ∃ h ∈ g.hospitals,
        r.name = rn ∧ h.name = hn ∧ Blocking r h) := by
    intro rn hn
    have := hpairs rn hn
    rwa [hl, Option.getD_some] at this
  have hempty : (g.check_stability).2 = true ↔ l = [] := by
    have : (g.check_stability).2 =
        ((g.check_stability).1.blocking_pairs.getD []).isEmpty := by
      simp [HospitalResident.check_stability]
    rw [this, hl, Option.getD_some, List.isEmpty_iff]
  refine ⟨?_, l, hl, hempty, hmem⟩
  rw [hempty]
  constructor
  · intro h0 r hr h hh hb
    have : (r.name, h.name) ∈ l := (hmem r.name h.name).mpr
      ⟨r, hr, h, hh, rfl, rfl, hb⟩
    rw [h0] at this
    exact (List.not_mem_nil _ this)
  · intro hno
    by_contra hne
    obtain ⟨⟨rn, hn⟩, hp⟩ := List.exists_mem_of_ne_nil l hne
    obtain ⟨r, hr, h, hh, _, _, hb⟩ := (hmem rn hn).mp hp
    exact hno r hr h hh hb

theorem unacceptable_residents_nil_iff (g : HospitalResident) :
    g.check_for_unacceptable_matches_residents = [] ↔
      ∀ r ∈ g.residents, ∀ m, r.matching = some m → m ∈ r.prefs := by
  simp only [HospitalResident.check_for_unacceptable_matches_residents,
    List.flatten_eq_nil_iff, List.mem_map]
  constructor
  · rintro hall r hr m hm
    by_contra hmem
    have := hall _ ⟨r, hr, rfl⟩
    simp [Resident.unacceptable_issues, hm, hmem] at this
  · rintro hall l ⟨r, hr, rfl⟩
    cases hm : r.matching with
    | none => simp [Resident.unacceptable_issues, hm]
    | some m => simp [Resident.unacceptable_issues, hm, hall r hr m hm]

theorem unacceptable_hospitals_nil_iff (g : HospitalResident) :
    g.check_for_unacceptable_matches_hospitals = [] ↔
      ∀ h ∈ g.hospitals, ∀ m ∈ h.matching, m ∈ h.prefs := by
  simp only [HospitalResident.check_for_unacceptable_matches_hospitals,
    List.flatten_eq_nil_iff, List.mem_map]
  constructor
  · rintro hall h hh m hm
    by_contra hmem
    have := hall _ ⟨h, hh, rfl⟩
    rw [Hospital.unacceptable_issues, List.map_eq_nil_iff,
      List.filter_eq_nil_iff] at this
    exact absurd (by simpa using hmem) (by simpa using this m hm)
  · rintro hall l ⟨h, hh, rfl⟩
    rw [Hospital.unacceptable_issues, List.map_eq_nil_iff,
      List.filter_eq_nil_iff]
    intro m hm
    simpa using hall h hh m hm

theorem oversubscribed_nil_iff (g : HospitalResident) :
    g.check_for_oversubscribed_players = [] ↔
      ∀ h ∈ g.hospitals, (h.matching.length : Int) ≤ h.capacity := by
  simp only [HospitalResident.check_for_oversubscribed_players,
    List.filterMap_eq_nil_iff]
  constructor
  · intro hall h hh
    have := hall h hh
    by_contra hlt
    simp [Hospital.check_if_oversubscribed, lt_of_not_le hlt] at this
  · intro hall h hh
    simp [Hospital.check_if_oversubscribed, not_lt_of_le (hall h hh)]

theorem check_validity_ok_iff (g : HospitalResident) :
    g.check_validity = .ok true ↔
      (g.check_for_unacceptable_matches_residents ++
        g.check_for_unacceptable_matches_hospitals = [] ∧
       g.check_for_oversubscribed_players = []) := by
  unfold HospitalResident.check_validity
  by_cases hc : (g.check_for_unacceptable_matches_residents ++
        g.check_for_unacceptable_matches_hospitals = [] ∧
       g.check_for_oversubscribed_players = [])
  · rw [if_pos (by simp [hc.1, hc.2])]
    simp [hc.1, hc.2]
  · rw [if_neg (by
      simp only [Bool.and_eq_true, List.isEmpty_eq_true]
      exact fun h0 => hc ⟨h0.1, h0.2⟩)]
    constructor
    · intro h0
      exact absurd h0 (by simp)
    · intro h0
      exact absurd h0 hc

theorem check_validity_error_iff (g : HospitalResident) (e : MatchingError) :
    g.check_validity = .error e ↔
      (¬(g.check_for_unacceptable_matches_residents ++
          g.check_for_unacceptable_matches_hospitals = [] ∧
        g.check_for_oversubscribed_players = []) ∧
       e = ⟨g.check_for_unacceptable_matches_residents ++
          g.check_for_unacceptable_matches_hospitals,
          g.check_for_oversubscribed_players⟩) := by
  unfold HospitalResident.check_validity
  by_cases hc : (g.check_for_unacceptable_matches_residents ++
        g.check_for_unacceptable_matches_hospitals = [] ∧
       g.check_for_oversubscribed_players = [])
  · rw [if_pos (by simp [hc.1, hc.2])]
    constructor
    · intro h0
      exact absurd h0 (by simp)
    · intro h0
      exact absurd hc h0.1
  · rw [if_neg (by
      simp only [Bool.and_eq_true, List.isEmpty_eq_true]
      exact fun h0 => hc ⟨h0.1, h0.2⟩)]
    simp only [Except.error.injEq]
    constructor
    · intro h0
      exact ⟨hc, h0.symm⟩
    · intro h0
      exact h0.2.symm

/-- C3: `check_validity` succeeds exactly when there is no unacceptable
match (for residents and hospitals, unmatched acceptable by default) and
no oversubscribed hospital; otherwise it raises exactly one structured
error that carries both defect lists, never two separate signals. -/
theorem check_validity_correct (g : HospitalResident) :
    (g.check_validity = .ok true ↔
      ((∀ r ∈ g.residents, ∀ m, r.matching = some m → m ∈ r.prefs) ∧
       (∀ h ∈ g.hospitals, ∀ m ∈ h.matching, m ∈ h.prefs) ∧
       (∀ h ∈ g.hospitals, (h.matching.length : Int) ≤ h.capacity))) ∧
    (∀ e, g.check_validity = .error e ↔
      ((g.check_for_unacceptable_matches_residents ++
          g.check_for_unacceptable_matches_hospitals ≠ [] ∨
        g.check_for_oversubscribed_players ≠ []) ∧
       e = ⟨g.check_for_unacceptable_matches_residents ++
          g.check_for_unacceptable_matches_hospitals,
          g.check_for_oversubscribed_players⟩)) := by
  constructor
  · rw [check_validity_ok_iff, List.append_eq_nil,
      unacceptable_residents_nil_iff, unacceptable_hospitals_nil_iff,
      oversubscribed_nil_iff, and_assoc]
  · intro e
    rw [check_validity_error_iff, not_and_or]

/-- C8: on a game whose only defect is a hospital of capacity 1 holding two
residents, `check_validity` raises the structured error, and its
oversubscribed list names exactly that hospital. -/
theorem check_validity_oversubscribed_example :
    oversubGame.check_validity =
      .error ⟨[], ["H1 is over-subscribed."]⟩ := by
  rfl

theorem foldl_scan_snd {α σ : Type} (p : α → Bool) (upd : α → σ → σ)
    (msg : α → HRWarning) :
    ∀ (l : List α) (st : σ) (w : List HRWarning),
      (l.foldl (fun acc x => if p x then acc
        else (upd x acc.1, acc.2 ++ [msg x])) (st, w)).2
      = w ++ (l.filter (fun x => !(p x))).map msg := by
  intro l
  induction l with
  | nil => intro st w; simp
  | cons a as ih =>
    intro st w
    by_cases hpa : p a = true
    · simp [List.foldl_cons, hpa, ih]
    · simp only [Bool.not_eq_true] at hpa
      simp [List.foldl_cons, hpa, ih]

theorem foldl_scan_fst {α σ : Type} (p : α → Bool) (upd : α → σ → σ)
    (msg : α → HRWarning) :
    ∀ (l : List α) (st : σ) (w : List HRWarning),
      (l.foldl (fun acc x => if p x then acc
        else (upd x acc.1, acc.2 ++ [msg x])) (st, w)).1
      = l.foldl (fun s x => if p x then s else upd x s) st := by
  intro l
  induction l with
  | nil => intro st w; rfl
  | cons a as ih =>
    intro st w
    by_cases hpa : p a = true
    · simp [List.foldl_cons, hpa, ih]
    · simp only [Bool.not_eq_true] at hpa
      simp [List.foldl_cons, hpa, ih]

theorem foldl_if_fixed {α σ : Type} (p : α → Bool) :
    ∀ (l : List α) (st : σ),
      l.foldl (fun s x => if p x then s else s) st = st := by
  intro l
  induction l with
  | nil => intro st; rfl
  | cons a as ih =>
    intro st
    rw [List.foldl_cons, ite_self]
    exact ih st

theorem reciprocatedScan_snd (residents : List Resident) (clean : Bool)
    (h : Hospital) :
    (reciprocatedScan residents clean h).2 =
      reciprocatedWarnings residents h := by
  unfold reciprocatedScan reciprocatedWarnings
  exact (foldl_scan_snd
    (fun rn => (residentPrefsIn residents rn).contains h.name)
    (fun rn st => if clean then st.erase rn else st)
    (fun rn => .prefsChanged (h.name ++ " ranked " ++ rn ++
      " but they did not."))
    h.prefs h.prefs []).trans (by rw [List.nil_append])

theorem reciprocatedScan_fst_no_clean (residents : List Resident)
    (clean : Bool) (hcl : clean = false) (h : Hospital) :
    (reciprocatedScan residents clean h).1 = h.prefs := by
  subst hcl
  unfold reciprocatedScan
  exact (foldl_scan_fst
    (fun rn => (residentPrefsIn residents rn).contains h.name)
    (fun rn st => st)
    (fun rn => .prefsChanged (h.name ++ " ranked " ++ rn ++
      " but they did not."))
    h.prefs h.prefs []).trans (foldl_if_fixed _ h.prefs h.prefs)

theorem reciprocatedAllScan_snd (h : Hospital) (clean : Bool)
    (residents : List Resident) :
    (reciprocatedAllScan h clean residents).2 =
      reciprocatedAllWarnings residents h := by
  unfold reciprocatedAllScan reciprocatedAllWarnings
  exact (foldl_scan_snd
    (fun r => h.prefs.contains r.name)
    (fun r st => if clean then forgetHospital h.name r.name st else st)
    (fun r => .prefsChanged (r.name ++ " ranked " ++ h.name ++
      " but they did not."))
    (residents.filter (fun r => r.prefs.contains h.name)) residents []).trans
    (by rw [List.nil_append])

theorem reciprocatedAllScan_fst_no_clean (h : Hospital) (clean : Bool)
    (hcl : clean = false) (residents : List Resident) :
    (reciprocatedAllScan h clean residents).1 = residents := by
  subst hcl
  unfold reciprocatedAllScan
  exact (foldl_scan_fst
    (fun r => h.prefs.contains r.name)
    (fun r st => st)
    (fun r => .prefsChanged (r.name ++ " ranked " ++ h.name ++
      " but they did not."))
    (residents.filter (fun r => r.prefs.contains h.name)) residents []).trans
    (foldl_if_fixed _ _ residents)

theorem if_clean_false {σ : Type} {c : Bool} (hc : c = false) (a b : σ) :
    (if c = true then a else b) = b := by
  rw [hc]
  simp

theorem pass_unique_residents_no_clean (g : HospitalResident)
    (hc : g.clean = false) :
    check_inputs_player_prefs_unique_residents g =
      (g, (g.residents.map (fun r =>
        uniqueWarnings r.name r.prefs)).flatten) := by
  unfold check_inputs_player_prefs_unique_residents
  simp only [if_clean_false hc]

theorem pass_unique_hospitals_no_clean (g : HospitalResident)
    (hc : g.clean = false) :
    check_inputs_player_prefs_unique_hospitals g =
      (g, (g.hospitals.map (fun h =>
        uniqueWarnings h.name h.prefs)).flatten) := by
  unfold check_inputs_player_prefs_unique_hospitals
  simp only [if_clean_false hc]

theorem pass_in_party_residents_no_clean (g : HospitalResident)
    (hc : g.clean = false) :
    check_inputs_player_prefs_all_in_party_residents g =
      (g, (g.residents.map (fun r => inPartyWarnings r.name r.prefs
        (g.hospitals.map Hospital.name))).flatten) := by
  unfold check_inputs_player_prefs_all_in_party_residents
  simp only [if_clean_false hc]

theorem pass_in_party_hospitals_no_clean (g : HospitalResident)
    (hc : g.clean = false) :
    check_inputs_player_prefs_all_in_party_hospitals g =
      (g, (g.hospitals.map (fun h => inPartyWarnings h.name h.prefs
        (g.residents.map Resident.name))).flatten) := by
  unfold check_inputs_player_prefs_all_in_party_hospitals
  simp only [if_clean_false hc]

theorem pass_reciprocated_no_clean (g : HospitalResident)
    (hc : g.clean = false) :
    check_inputs_player_prefs_all_reciprocated g =
      (g, (g.hospitals.map (fun h =>
        reciprocatedWarnings g.residents h)).flatten) := by
  unfold check_inputs_player_prefs_all_reciprocated
  have h0 : g.hospitals.map (fun h =>
      { h with prefs := (reciprocatedScan g.residents g.clean h).1 }) =
      g.hospitals.map id :=
    List.map_congr_left (fun h hh => by
      rw [reciprocatedScan_fst_no_clean g.residents g.clean hc h]
      rfl)
  have h2 : g.hospitals.map (fun h =>
      (reciprocatedScan g.residents g.clean h).2) =
      g.hospitals.map (fun h => reciprocatedWarnings g.residents h) :=
    List.map_congr_left (fun h hh => reciprocatedScan_snd _ _ _)
  rw [h0, List.map_id, h2]

theorem pass_reciprocated_all_fold_no_clean (clean : Bool)
    (hcl : clean = false) :
    ∀ (hs : List Hospital) (res : List Resident) (w : List HRWarning),
      hs.foldl (fun acc h =>
        let s := reciprocatedAllScan h clean acc.1
        (s.1, acc.2 ++ s.2)) (res, w)
      = (res, w ++ (hs.map (fun h =>
          reciprocatedAllWarnings res h)).flatten) := by
  intro hs
  induction hs with
  | nil => intro res w; simp
  | cons a as ih =>
    intro res w
    rw [List.foldl_cons]
    have key : List.foldl (fun (acc : List Resident × List HRWarning) h =>
        let s := reciprocatedAllScan h clean acc.1
        (s.1, acc.2 ++ s.2))
        ((reciprocatedAllScan a clean res).1,
          w ++ (reciprocatedAllScan a clean res).2) as
        = (res, w ++ (List.map (fun h =>
            reciprocatedAllWarnings res h) (a :: as)).flatten) := by
      rw [reciprocatedAllScan_fst_no_clean a clean hcl,
        reciprocatedAllScan_snd, ih]
      simp [List.append_assoc]
    exact key

theorem pass_reciprocated_all_no_clean (g : HospitalResident)
    (hc : g.clean = false) :
    check_inputs_player_reciprocated_all_prefs g =
      (g, (g.hospitals.map (fun h =>
        reciprocatedAllWarnings g.residents h)).flatten) := by
  unfold check_inputs_player_reciprocated_all_prefs
  rw [pass_reciprocated_all_fold_no_clean g.clean hc g.hospitals
    g.residents []]
  rw [List.nil_append]

theorem pass_capacity_no_clean (g : HospitalResident)
    (hc : g.clean = false) :
    check_inputs_player_capacity g =
      (g, (g.hospitals.filter (fun h => decide (h.capacity < 1))).map
        (fun h => HRWarning.playerExcluded h.name)) := by
  unfold check_inputs_player_capacity
  simp only [if_clean_false hc]

theorem pass_nonempty_eq (g : HospitalResident) :
    check_inputs_player_prefs_nonempty g =
      (g, (g.residents.filter (fun r => r.prefs.isEmpty)).map (fun r =>
            HRWarning.playerExcluded r.name)
        ++ (g.hospitals.filter (fun h => h.prefs.isEmpty)).map (fun h =>
            HRWarning.playerExcluded h.name)) := rfl

/-- C6: with `clean` disabled, `check_inputs` leaves the game state
unmodified — no preference list is altered and no player is removed — and
every check reports its warnings against the original, unmodified state. -/
theorem check_inputs_no_clean (g : HospitalResident) (hc : g.clean = false) :
    (g.check_inputs).1 = g ∧ (g.check_inputs).2 = detectedWarnings g := by
  unfold HospitalResident.check_inputs
  simp only [pass_unique_residents_no_clean g hc,
    pass_unique_hospitals_no_clean g hc,
    pass_in_party_residents_no_clean g hc,
    pass_in_party_hospitals_no_clean g hc,
    pass_reciprocated_no_clean g hc,
    pass_reciprocated_all_no_clean g hc, pass_nonempty_eq,
    pass_capacity_no_clean g hc]
  exact ⟨trivial, rfl⟩

/-- Witness for C6: a game with a duplicated preference entry, an
unreciprocated ranking and a zero-capacity hospital, constructed with
`clean` disabled, is reported on but not modified. -/
theorem check_inputs_no_clean_witness :
    (HospitalResident.mk [⟨"R1", ["H1", "H1", "H2"], none⟩]
        [⟨"H1", 1, [], []⟩, ⟨"H2", 0, ["R1"], []⟩] false none
        none).clean = false ∧
    ((HospitalResident.mk [⟨"R1", ["H1", "H1", "H2"], none⟩]
        [⟨"H1", 1, [], []⟩, ⟨"H2", 0, ["R1"], []⟩] false none
        none).check_inputs).1 =
      HospitalResident.mk [⟨"R1", ["H1", "H1", "H2"], none⟩]
        [⟨"H1", 1, [], []⟩, ⟨"H2", 0, ["R1"], []⟩] false none none ∧
    ((HospitalResident.mk [⟨"R1", ["H1", "H1", "H2"], none⟩]
        [⟨"H1", 1, [], []⟩, ⟨"H2", 0, ["R1"], []⟩] false none
        none).check_inputs).2 =
      detectedWarnings (HospitalResident.mk
        [⟨"R1", ["H1", "H1", "H2"], none⟩]
        [⟨"H1", 1, [], []⟩, ⟨"H2", 0, ["R1"], []⟩] false none none) :=
  ⟨rfl,
   (check_inputs_no_clean (HospitalResident.mk
      [⟨"R1", ["H1", "H1", "H2"], none⟩]
      [⟨"H1", 1, [], []⟩, ⟨"H2", 0, ["R1"], []⟩] false none none) rfl).1,
   (check_inputs_no_clean (HospitalResident.mk
      [⟨"R1", ["H1", "H1", "H2"], none⟩]
      [⟨"H1", 1, [], []⟩, ⟨"H2", 0, ["R1"], []⟩] false none none) rfl).2⟩

theorem check_inputs_snd (g : HospitalResident) :
    (g.check_inputs).2 =
      (check_inputs_player_prefs_unique_residents g).2 ++
      (check_inputs_player_prefs_unique_hospitals
          (check_inputs_player_prefs_unique_residents g).1).2 ++
      (check_inputs_player_prefs_all_in_party_residents
          (check_inputs_player_prefs_unique_hospitals
            (check_inputs_player_prefs_unique_residents g).1).1).2 ++
      (check_inputs_player_prefs_all_in_party_hospitals
          (check_inputs_player_prefs_all_in_party_residents
            (check_inputs_player_prefs_unique_hospitals
              (check_inputs_player_prefs_unique_residents g).1).1).1).2 ++
      (check_inputs_player_prefs_all_reciprocated
          (check_inputs_player_prefs_all_in_party_hospitals
            (check_inputs_player_prefs_all_in_party_residents
              (check_inputs_player_prefs_unique_hospitals
                (check_inputs_player_prefs_unique_residents
                  g).1).1).1).1).2 ++
      (check_inputs_player_reciprocated_all_prefs
          (check_inputs_player_prefs_all_reciprocated
            (check_inputs_player_prefs_all_in_party_hospitals
              (check_inputs_player_prefs_all_in_party_residents
                (check_inputs_player_prefs_unique_hospitals
                  (check_inputs_player_prefs_unique_residents
                    g).1).1).1).1).1).2 ++
      (check_inputs_player_prefs_nonempty (sanitizedBeforeNonempty g)).2 ++
      (check_inputs_player_capacity
        (check_inputs_player_prefs_nonempty
          (sanitizedBeforeNonempty g)).1).2 := by
  simp only [HospitalResident.check_inputs, sanitizedBeforeNonempty]

theorem mem_check_inputs_of_mem_nonempty (g : HospitalResident)
    (w : HRWarning)
    (hw : w ∈ (check_inputs_player_prefs_nonempty
      (sanitizedBeforeNonempty g)).2) :
    w ∈ (g.check_inputs).2 := by
  rw [check_inputs_snd]
  exact List.mem_append.mpr (Or.inl (List.mem_append.mpr (Or.inr hw)))

/-- C5 (amended): the empty-preference check observes the game state after
the uniqueness, dangling-entry and reciprocity repairs but before the
capacity pass; every participant whose preference list is empty at that
point is warned. A participant emptied only by the capacity exclusion is
not warned (see the counterexample). -/
theorem check_inputs_empty_pref_warning (g : HospitalResident) :
    (∀ r ∈ (sanitizedBeforeNonempty g).residents, r.prefs = [] →
      HRWarning.playerExcluded r.name ∈ (g.check_inputs).2) ∧
    (∀ h ∈ (sanitizedBeforeNonempty g).hospitals, h.prefs = [] →
      HRWarning.playerExcluded h.name ∈ (g.check_inputs).2) := by
  constructor
  · intro r hr hempty
    refine mem_check_inputs_of_mem_nonempty g _ ?_
    rw [pass_nonempty_eq]
    refine List.mem_append.mpr (Or.inl ?_)
    exact List.mem_map.mpr ⟨r, List.mem_filter.mpr ⟨hr, by
      simp [hempty]⟩, rfl⟩
  · intro h hh hempty
    refine mem_check_inputs_of_mem_nonempty g _ ?_
    rw [pass_nonempty_eq]
    refine List.mem_append.mpr (Or.inr ?_)
    exact List.mem_map.mpr ⟨h, List.mem_filter.mpr ⟨hh, by
      simp [hempty]⟩, rfl⟩

/-- Witness for the amended C5: a resident with an empty list from the
start is warned about by `check_inputs`. -/
theorem check_inputs_empty_pref_warning_witness :
    ⟨"R", [], none⟩ ∈ (sanitizedBeforeNonempty (HospitalResident.mk
        [⟨"R", [], none⟩] [] true none none)).residents ∧
    (⟨"R", [], none⟩ : Resident).prefs = [] ∧
    HRWarning.playerExcluded "R" ∈ ((HospitalResident.mk
        [⟨"R", [], none⟩] [] true none none).check_inputs).2 :=
  ⟨by decide, rfl,
   (check_inputs_empty_pref_warning (HospitalResident.mk
      [⟨"R", [], none⟩] [] true none none)).1
     ⟨"R", [], none⟩ (by decide) rfl⟩

/-- Counterexample to C5 as stated: with `clean` enabled, a resident whose
only ranked hospital is excluded by the capacity check ends the input
checks with an empty preference list, yet no warning naming that resident
is ever surfaced — the empty-preference check ran before the capacity
exclusion emptied the list. -/
theorem check_inputs_capacity_empty_not_warned :
    ((HospitalResident.mk [⟨"R", ["H"], none⟩] [⟨"H", 0, ["R"], []⟩]
        true none none).check_inputs).1.residents = [⟨"R", [], none⟩] ∧
    ((HospitalResident.mk [⟨"R", ["H"], none⟩] [⟨"H", 0, ["R"], []⟩]
        true none none).check_inputs).2 =
      [HRWarning.playerExcluded "H"] ∧
    HRWarning.playerExcluded "R" ∉
      ((HospitalResident.mk [⟨"R", ["H"], none⟩] [⟨"H", 0, ["R"], []⟩]
        true none none).check_inputs).2 := by
  refine ⟨?_, ?_, ?_⟩ <;> decide

theorem if_clean_true {σ : Type} {c : Bool} (hc : c = true) (a b : σ) :
    (if c = true then a else b) = a := by
  rw [hc]
  simp

theorem foldl_erase_eq_filter (p : String → Bool) :
    ∀ (l cur : List String),
      (∀ x, p x = false → cur.count x ≤ l.count x) →
      l.foldl (fun s x => if p x then s else s.erase x) cur =
        cur.filter p := by
  intro l
  induction l with
  | nil =>
    intro cur hcnt
    rw [List.foldl_nil]
    symm
    rw [List.filter_eq_self]
    intro a ha
    by_contra hpa
    rw [Bool.not_eq_true] at hpa
    have h0 := hcnt a hpa
    rw [List.count_nil, Nat.le_zero, List.count_eq_zero] at h0
    exact h0 ha
  | cons a as ih =>
    intro cur hcnt
    rw [List.foldl_cons]
    by_cases hpa : p a = true
    · rw [if_pos hpa]
      refine ih cur (fun x hx => ?_)
      have h0 := hcnt x hx
      have hax : ¬(a == x) = true := by
        intro hax
        rw [beq_iff_eq] at hax
        rw [hax, hx] at hpa
        cases hpa
      rwa [List.count_cons, if_neg hax, Nat.add_zero] at h0
    · rw [if_neg hpa]
      rw [Bool.not_eq_true] at hpa
      have hres := ih (cur.erase a) (fun x hx => ?_)
      · rw [hres, ← List.erase_filter, List.erase_of_not_mem]
        intro hmem
        have h1 := (List.mem_filter.mp hmem).2
        rw [hpa] at h1
        cases h1
      · by_cases hax : x = a
        · subst hax
          have h0 := hcnt x hx
          rw [List.count_cons, if_pos (by simp)] at h0
          rw [List.count_erase_self]
          omega
        · have h0 := hcnt x hx
          rw [List.count_cons, if_neg (by simpa using Ne.symm hax),
            Nat.add_zero] at h0
          rwa [List.count_erase_of_ne hax]

theorem reciprocatedScan_fst_clean (residents : List Resident)
    (h : Hospital) :
    (reciprocatedScan residents true h).1 =
      h.prefs.filter (fun rn =>
        (residentPrefsIn residents rn).contains h.name) := by
  unfold reciprocatedScan
  have h0 := foldl_scan_fst
    (fun rn => (residentPrefsIn residents rn).contains h.name)
    (fun rn st => st.erase rn)
    (fun rn => .prefsChanged (h.name ++ " ranked " ++ rn ++
      " but they did not."))
    h.prefs h.prefs []
  refine h0.trans ?_
  exact foldl_erase_eq_filter _ h.prefs h.prefs (fun x hx => Nat.le_refl _)

/-- The net effect of the first reciprocity pass in clean mode: the
residents are untouched and every hospital keeps exactly the preference
entries naming residents that rank it back. -/
theorem passA_clean (g : HospitalResident) (hc : g.clean = true) :
    (check_inputs_player_prefs_all_reciprocated g).1.residents =
      g.residents ∧
    (check_inputs_player_prefs_all_reciprocated g).1.hospitals =
      g.hospitals.map (fun h => { h with prefs := h.prefs.filter (fun rn =>
        (residentPrefsIn g.residents rn).contains h.name) }) := by
  refine ⟨rfl, ?_⟩
  have h0 : (check_inputs_player_prefs_all_reciprocated g).1.hospitals =
      g.hospitals.map (fun h =>
        { h with prefs := (reciprocatedScan g.residents g.clean h).1 }) := rfl
  rw [h0]
  refine List.map_congr_left (fun h hh => ?_)
  rw [hc, reciprocatedScan_fst_clean]

theorem keepB_cons (h : Hospital) (hs : List Hospital) (rn hn : String) :
    keepB (h :: hs) rn hn =
      if h.name == hn then h.prefs.contains rn else keepB hs rn hn := by
  unfold keepB
  rw [List.find?_cons]
  cases hbe : (h.name == hn) <;> simp [hbe]

theorem keepB_not_mem (hs : List Hospital) (rn hn : String)
    (hno : ∀ h2 ∈ hs, h2.name ≠ hn) : keepB hs rn hn = true := by
  unfold keepB
  rw [List.find?_eq_none.mpr (fun h2 hh2 => by simpa using hno h2 hh2)]

theorem name_eraseIfUnreciprocated (h : Hospital) (x : Resident) :
    (eraseIfUnreciprocated h x).name = x.name := by
  unfold eraseIfUnreciprocated
  split <;> rfl

theorem matching_eraseIfUnreciprocated (h : Hospital) (x : Resident) :
    (eraseIfUnreciprocated h x).matching = x.matching := by
  unfold eraseIfUnreciprocated
  split <;> rfl

theorem prefs_nodup_eraseIfUnreciprocated (h : Hospital) (x : Resident)
    (hx : x.prefs.Nodup) : (eraseIfUnreciprocated h x).prefs.Nodup := by
  unfold eraseIfUnreciprocated
  split
  · exact hx.erase h.name
  · exact hx

theorem scanB_fold_skip (h : Hospital) :
    ∀ (todo : List Resident) (y : Resident),
      (∀ r ∈ todo, r.name = y.name → h.prefs.contains r.name = true) →
      todo.foldl (fun y2 r => if h.prefs.contains r.name then y2
        else if y2.name == r.name
          then { y2 with prefs := y2.prefs.erase h.name } else y2) y
      = y := by
  intro todo
  induction todo with
  | nil => intro y hskip; rfl
  | cons a as ih =>
    intro y hskip
    rw [List.foldl_cons]
    by_cases hpa : h.prefs.contains a.name = true
    · rw [if_pos hpa]
      exact ih y (fun r hr => hskip r (List.mem_cons_of_mem a hr))
    · rw [if_neg hpa]
      have hne : ¬(y.name == a.name) = true := by
        intro hbe
        rw [beq_iff_eq] at hbe
        exact hpa (hskip a (List.mem_cons_self a as) hbe.symm)
      rw [if_neg hne]
      exact ih y (fun r hr => hskip r (List.mem_cons_of_mem a hr))

theorem scanB_fold_eval (h : Hospital) :
    ∀ (todo : List Resident) (x : Resident),
      (todo.map Resident.name).Nodup →
      (∀ r ∈ todo, r.name = x.name → r = x) →
      todo.foldl (fun y r => if h.prefs.contains r.name then y
        else if y.name == r.name
          then { y with prefs := y.prefs.erase h.name } else y) x
      = if x ∈ todo ∧ ¬(h.prefs.contains x.name = true)
          then { x with prefs := x.prefs.erase h.name } else x := by
  intro todo
  induction todo with
  | nil =>
    intro x hnd hinj
    rw [List.foldl_nil, if_neg]
    rintro ⟨hmem, -⟩
    exact List.not_mem_nil x hmem
  | cons a as ih =>
    intro x hnd hinj
    rw [List.foldl_cons]
    rcases eq_or_ne a x with rfl | hax
    · by_cases hpx : h.prefs.contains a.name = true
      · rw [if_pos hpx]
        rw [scanB_fold_skip h as a (fun r hr hname => by
          exact absurd (List.mem_map.mpr ⟨r, hr, hname⟩)
            (List.nodup_cons.mp hnd).1)]
        rw [if_neg]
        rintro ⟨-, hcon⟩
        exact hcon hpx
      · rw [if_neg hpx]
        have hbeq : (a.name == a.name) = true := by simp
        rw [if_pos hbeq]
        rw [scanB_fold_skip h as _ (fun r hr hname => by
          exact absurd (List.mem_map.mpr ⟨r, hr, hname⟩)
            (List.nodup_cons.mp hnd).1)]
        rw [if_pos ⟨List.mem_cons_self a as, hpx⟩]
    · have hstep : (if h.prefs.contains a.name = true then x
          else if x.name == a.name
            then { x with prefs := x.prefs.erase h.name } else x) = x := by
        by_cases hpa : h.prefs.contains a.name = true
        · rw [if_pos hpa]
        · rw [if_neg hpa, if_neg]
          intro hbe
          rw [beq_iff_eq] at hbe
          exact hax (hinj a (List.mem_cons_self a as) hbe.symm)
      rw [hstep, ih x (List.nodup_cons.mp hnd).2
        (fun r hr => hinj r (List.mem_cons_of_mem a hr))]
      by_cases hmem : x ∈ as ∧ ¬(h.prefs.contains x.name = true)
      · rw [if_pos hmem, if_pos ⟨List.mem_cons_of_mem a hmem.1, hmem.2⟩]
      · rw [if_neg hmem, if_neg]
        rintro ⟨hm, hcon⟩
        rcases List.mem_cons.mp hm with rfl | hm2
        · exact hax rfl
        · exact hmem ⟨hm2, hcon⟩

theorem foldl_filter_map_comp {α : Type} (p : α → Bool)
    (u : α → Resident → Resident) :
    ∀ (todo : List α) (st : List Resident),
      todo.foldl (fun s r => if p r then s else s.map (u r)) st =
        st.map (fun x => todo.foldl
          (fun y r => if p r then y else u r y) x) := by
  intro todo
  induction todo with
  | nil =>
    intro st
    rw [List.foldl_nil]
    exact (List.map_id' st).symm
  | cons a as ih =>
    intro st
    rw [List.foldl_cons]
    by_cases hpa : p a = true
    · rw [if_pos hpa, ih]
      refine List.map_congr_left (fun x hx => ?_)
      show _ = as.foldl _ (if p a = true then x else u a x)
      rw [if_pos hpa]
    · rw [if_neg hpa, ih, List.map_map]
      refine List.map_congr_left (fun x hx => ?_)
      show _ = as.foldl _ (if p a = true then x else u a x)
      rw [if_neg hpa]
      rfl

theorem reciprocatedAllScan_fst_clean (h : Hospital) (res : List Resident)
    (hnd : (res.map Resident.name).Nodup) :
    (reciprocatedAllScan h true res).1 =
      res.map (eraseIfUnreciprocated h) := by
  unfold reciprocatedAllScan
  have h0 := foldl_scan_fst
    (fun r => h.prefs.contains r.name)
    (fun r st => forgetHospital h.name r.name st)
    (fun r => .prefsChanged (r.name ++ " ranked " ++ h.name ++
      " but they did not."))
    (res.filter (fun r => r.prefs.contains h.name)) res []
  refine h0.trans ?_
  have h1 := foldl_filter_map_comp (fun r => h.prefs.contains r.name)
    (fun r y => if y.name == r.name
      then { y with prefs := y.prefs.erase h.name } else y)
    (res.filter (fun r => r.prefs.contains h.name)) res
  refine h1.trans ?_
  refine List.map_congr_left (fun x hx => ?_)
  rw [scanB_fold_eval h _ x
    (((List.filter_sublist res).map Resident.name).nodup hnd)
    (fun r hr hname =>
      List.inj_on_of_nodup_map hnd (List.mem_of_mem_filter hr) hx hname)]
  unfold eraseIfUnreciprocated
  by_cases hcm : x ∈ res.filter (fun r => r.prefs.contains h.name) ∧
      ¬(h.prefs.contains x.name = true)
  · rw [if_pos hcm, if_pos ⟨(List.mem_filter.mp hcm.1).2, hcm.2⟩]
  · rw [if_neg hcm, if_neg]
    rintro ⟨hc1, hc2⟩
    exact hcm ⟨List.mem_filter.mpr ⟨hx, hc1⟩, hc2⟩

theorem map_name_map_eraseIf (h : Hospital) (res : List Resident) :
    (res.map (eraseIfUnreciprocated h)).map Resident.name =
      res.map Resident.name := by
  rw [List.map_map]
  exact List.map_congr_left (fun x hx => name_eraseIfUnreciprocated h x)

theorem passB_state_clean :
    ∀ (hs : List Hospital) (res : List Resident),
      (res.map Resident.name).Nodup →
      (∀ r ∈ res, r.prefs.Nodup) →
      (hs.map Hospital.name).Nodup →
      hs.foldl (fun st h => (reciprocatedAllScan h true st).1) res =
        res.map (fun r => { r with prefs := r.prefs.filter (fun hn =>
          keepB hs r.name hn) }) := by
  intro hs
  induction hs with
  | nil =>
    intro res hrn hrp hhn
    rw [List.foldl_nil]
    refine (List.map_id'' (fun r => ?_) res).symm
    have hf : List.filter (fun hn => keepB [] r.name hn) r.prefs =
        r.prefs := List.filter_eq_self.mpr (fun a ha => rfl)
    rw [hf]
  | cons h0 hs' ih =>
    intro res hrn hrp hhn
    rw [List.foldl_cons, reciprocatedAllScan_fst_clean h0 res hrn]
    have hrn' : ((res.map (eraseIfUnreciprocated h0)).map
        Resident.name).Nodup := by
      rw [map_name_map_eraseIf]
      exact hrn
    have hrp' : ∀ r ∈ res.map (eraseIfUnreciprocated h0), r.prefs.Nodup := by
      intro r hr
      obtain ⟨x, hx, rfl⟩ := List.mem_map.mp hr
      exact prefs_nodup_eraseIfUnreciprocated h0 x (hrp x hx)
    rw [ih (res.map (eraseIfUnreciprocated h0)) hrn' hrp'
      (List.nodup_cons.mp hhn).2]
    rw [List.map_map]
    refine List.map_congr_left (fun x hx => ?_)
    have hnodup := hrp x hx
    have hnotin : ∀ h2 ∈ hs', h2.name ≠ h0.name := by
      intro h2 hh2 heq
      exact (List.nodup_cons.mp hhn).1 (List.mem_map.mpr ⟨h2, hh2, heq⟩)
    show { (eraseIfUnreciprocated h0 x) with
        prefs := (eraseIfUnreciprocated h0 x).prefs.filter (fun hn =>
          keepB hs' (eraseIfUnreciprocated h0 x).name hn) } =
      { x with prefs := x.prefs.filter (fun hn =>
        keepB (h0 :: hs') x.name hn) }
    unfold eraseIfUnreciprocated
    by_cases hcond : x.prefs.contains h0.name = true ∧
        ¬(h0.prefs.contains x.name = true)
    · rw [if_pos hcond]
      have hpe : ((x.prefs.erase h0.name).filter (fun hn =>
          keepB hs' x.name hn)) = x.prefs.filter (fun hn =>
            keepB (h0 :: hs') x.name hn) := by
        rw [hnodup.erase_eq_filter h0.name, List.filter_filter]
        refine List.filter_congr (fun hn hmem => ?_)
        rw [keepB_cons]
        by_cases hbe : (h0.name == hn) = true
        · rw [if_pos hbe]
          rw [beq_iff_eq] at hbe
          have h1 : (hn != h0.name) = false := by
            simp [hbe.symm]
          rw [h1, Bool.and_false]
          have hcc : h0.prefs.contains x.name = false :=
            Bool.eq_false_iff.mpr hcond.2
          exact hcc.symm
        · rw [if_neg hbe]
          have h1 : (hn != h0.name) = true := by
            simp only [bne_iff_ne, ne_eq]
            intro heq
            rw [heq] at hbe
            simp at hbe
          rw [h1, Bool.and_true]
      exact congrArg (fun l => Resident.mk x.name l x.matching) hpe
    · rw [if_neg hcond]
      have hpe : (x.prefs.filter (fun hn => keepB hs' x.name hn)) =
          x.prefs.filter (fun hn => keepB (h0 :: hs') x.name hn) := by
        refine List.filter_congr (fun hn hmem => ?_)
        rw [keepB_cons]
        by_cases hbe : (h0.name == hn) = true
        · rw [if_pos hbe]
          rw [beq_iff_eq] at hbe
          have hx0 : x.prefs.contains h0.name = true := by
            rw [hbe]
            exact List.elem_eq_true_of_mem hmem
          have hcs : h0.prefs.contains x.name = true := by
            by_contra hns
            exact hcond ⟨hx0, hns⟩
          rw [hcs]
          subst hbe
          exact keepB_not_mem hs' x.name h0.name hnotin
        · rw [if_neg hbe]
      exact congrArg (fun l => Resident.mk x.name l x.matching) hpe

theorem foldl_pair_fst {σ τ β : Type} (F : σ → β → σ) (G : σ × τ → β → τ) :
    ∀ (l : List β) (st : σ) (w : τ),
      (l.foldl (fun acc x => (F acc.1 x, G acc x)) (st, w)).1 =
        l.foldl F st := by
  intro l
  induction l with
  | nil => intro st w; rfl
  | cons a as ih =>
    intro st w
    rw [List.foldl_cons, List.foldl_cons]
    exact ih _ _

/-- The net effect of the second reciprocity pass in clean mode: the
hospitals are untouched and every resident keeps exactly the preference
entries naming hospitals that rank it back. -/
theorem passB_clean (g : HospitalResident) (hc : g.clean = true)
    (hrn : (g.residents.map Resident.name).Nodup)
    (hrp : ∀ r ∈ g.residents, r.prefs.Nodup)
    (hhn : (g.hospitals.map Hospital.name).Nodup) :
    (check_inputs_player_reciprocated_all_prefs g).1.hospitals =
      g.hospitals ∧
    (check_inputs_player_reciprocated_all_prefs g).1.residents =
      g.residents.map (fun r => { r with prefs := r.prefs.filter (fun hn =>
        keepB g.hospitals r.name hn) }) := by
  refine ⟨rfl, ?_⟩
  have h0 : (check_inputs_player_reciprocated_all_prefs g).1.residents =
      (g.hospitals.foldl (fun acc h =>
        let s := reciprocatedAllScan h g.clean acc.1
        (s.1, acc.2 ++ s.2)) (g.residents, ([] : List HRWarning))).1 := rfl
  rw [h0, hc]
  exact (foldl_pair_fst (fun st h => (reciprocatedAllScan h true st).1)
    (fun acc h => acc.2 ++ (reciprocatedAllScan h true acc.1).2)
    g.hospitals g.residents []).trans
    (passB_state_clean g.hospitals g.residents hrn hrp hhn)

/-- C4: in clean mode, every asymmetric-ranking repair removes the
unreciprocated entry from the own list of the player that ranked it: the
first reciprocity pass leaves the residents untouched and trims each
hospital to the entries that rank it back, and the second pass leaves the
hospitals untouched and trims each resident to the entries whose hospital
ranks it back — never the other way around. -/
theorem reciprocity_repair_direction (g : HospitalResident)
    (hc : g.clean = true)
    (hrn : (g.residents.map Resident.name).Nodup)
    (hhn : (g.hospitals.map Hospital.name).Nodup)
    (hrp : ∀ r ∈ g.residents, r.prefs.Nodup) :
    ((check_inputs_player_prefs_all_reciprocated g).1.residents =
        g.residents ∧
      (check_inputs_player_prefs_all_reciprocated g).1.hospitals =
        g.hospitals.map (fun h => { h with prefs := h.prefs.filter (fun rn =>
          (residentPrefsIn g.residents rn).contains h.name) })) ∧
    ((check_inputs_player_reciprocated_all_prefs g).1.hospitals =
        g.hospitals ∧
      (check_inputs_player_reciprocated_all_prefs g).1.residents =
        g.residents.map (fun r => { r with prefs := r.prefs.filter (fun hn =>
          keepB g.hospitals r.name hn) })) :=
  ⟨passA_clean g hc, passB_clean g hc hrn hrp hhn⟩

/-- Witness for C4: a hospital ranking a non-reciprocating resident loses
that entry itself, and a resident ranking a non-reciprocating hospital
loses that entry itself. -/
theorem reciprocity_repair_direction_witness :
    ((HospitalResident.mk [⟨"R1", ["H1"], none⟩, ⟨"R2", [], none⟩]
        [⟨"H1", 1, ["R1", "R2"], []⟩] true none none).clean = true ∧
     ((HospitalResident.mk [⟨"R1", ["H1"], none⟩, ⟨"R2", [], none⟩]
        [⟨"H1", 1, ["R1", "R2"], []⟩] true none
        none).residents.map Resident.name).Nodup) ∧
    (check_inputs_player_prefs_all_reciprocated
        (HospitalResident.mk [⟨"R1", ["H1"], none⟩, ⟨"R2", [], none⟩]
          [⟨"H1", 1, ["R1", "R2"], []⟩] true none none)).1.hospitals =
      [⟨"H1", 1, ["R1"], []⟩] ∧
    (check_inputs_player_reciprocated_all_prefs
        (HospitalResident.mk [⟨"R1", ["H1", "H2"], none⟩]
          [⟨"H1", 1, ["R1"], []⟩, ⟨"H2", 1, [], []⟩] true none
          none)).1.residents = [⟨"R1", ["H1"], none⟩] := by
  refine ⟨⟨rfl, by decide⟩, ?_, ?_⟩
  · have h1 := (reciprocity_repair_direction
      (HospitalResident.mk [⟨"R1", ["H1"], none⟩, ⟨"R2", [], none⟩]
        [⟨"H1", 1, ["R1", "R2"], []⟩] true none none) rfl
      (by decide) (by decide) (by decide)).1.2
    rw [h1]
    decide
  · have h2 := (reciprocity_repair_direction
      (HospitalResident.mk [⟨"R1", ["H1", "H2"], none⟩]
        [⟨"H1", 1, ["R1"], []⟩, ⟨"H2", 1, [], []⟩] true none none) rfl
      (by decide) (by decide) (by decide)).2.2
    rw [h2]
    decide

theorem dedupFirst_nodup : ∀ l : List String, (dedupFirst l).Nodup := by
  intro l
  induction l with
  | nil => exact List.nodup_nil
  | cons x xs ih =>
    rw [dedupFirst, List.nodup_cons]
    refine ⟨fun hmem => ?_, ih.filter _⟩
    have := (List.mem_filter.mp hmem).2
    simp at this

theorem map_name_residents_update (f : Resident → List String)
    (res : List Resident) :
    (res.map (fun r => { r with prefs := f r })).map Resident.name =
      res.map Resident.name := by
  rw [List.map_map]
  exact List.map_congr_left (fun x hx => rfl)

theorem map_name_hospitals_update (f : Hospital → List String)
    (hs : List Hospital) :
    (hs.map (fun h => { h with prefs := f h })).map Hospital.name =
      hs.map Hospital.name := by
  rw [List.map_map]
  exact List.map_congr_left (fun x hx => rfl)

theorem pass_unique_residents_clean_fst (g : HospitalResident)
    (hc : g.clean = true) :
    (check_inputs_player_prefs_unique_residents g).1 =
      { g with residents := g.residents.map (fun r =>
        { r with prefs := dedupFirst r.prefs }) } := by
  unfold check_inputs_player_prefs_unique_residents
  simp only [if_clean_true hc]

theorem pass_unique_hospitals_clean_fst (g : HospitalResident)
    (hc : g.clean = true) :
    (check_inputs_player_prefs_unique_hospitals g).1 =
      { g with hospitals := g.hospitals.map (fun h =>
        { h with prefs := dedupFirst h.prefs }) } := by
  unfold check_inputs_player_prefs_unique_hospitals
  simp only [if_clean_true hc]

theorem pass_in_party_residents_clean_fst (g : HospitalResident)
    (hc : g.clean = true) :
    (check_inputs_player_prefs_all_in_party_residents g).1 =
      { g with residents := g.residents.map (fun r =>
        { r with prefs := r.prefs.filter (fun n =>
          (g.hospitals.map Hospital.name).contains n) }) } := by
  unfold check_inputs_player_prefs_all_in_party_residents
  simp only [if_clean_true hc]

theorem pass_in_party_hospitals_clean_fst (g : HospitalResident)
    (hc : g.clean = true) :
    (check_inputs_player_prefs_all_in_party_hospitals g).1 =
      { g with hospitals := g.hospitals.map (fun h =>
        { h with prefs := h.prefs.filter (fun n =>
          (g.residents.map Resident.name).contains n) }) } := by
  unfold check_inputs_player_prefs_all_in_party_hospitals
  simp only [if_clean_true hc]

theorem capacity_state_clean (g : HospitalResident) (hc : g.clean = true) :
    (check_inputs_player_capacity g).1 =
      { g with
        hospitals := g.hospitals.filter (fun h => !(decide (h.capacity < 1))),
        residents := g.residents.map (fun r =>
          { r with prefs := List.foldl List.erase r.prefs
                              ((g.hospitals.filter (fun h =>
                                decide (h.capacity < 1))).map
                                Hospital.name) }) } := by
  unfold check_inputs_player_capacity
  simp only [if_clean_true hc]

theorem find?_resident_name (res : List Resident) (r : Resident)
    (hnd : (res.map Resident.name).Nodup) (hr : r ∈ res) :
    res.find? (fun r2 => r2.name == r.name) = some r := by
  induction res with
  | nil => cases hr
  | cons a as ih =>
    rcases List.mem_cons.mp hr with rfl | hmem
    · exact List.find?_cons_of_pos as (by simp)
    · have hne : ¬(a.name == r.name) = true := by
        intro hbe
        rw [beq_iff_eq] at hbe
        exact (List.nodup_cons.mp hnd).1
          (List.mem_map.mpr ⟨r, hmem, hbe.symm⟩)
      rw [List.find?_cons_of_neg as hne]
      exact ih (List.nodup_cons.mp hnd).2 hmem

theorem find?_hospital_name (hs : List Hospital) (h : Hospital)
    (hnd : (hs.map Hospital.name).Nodup) (hh : h ∈ hs) :
    hs.find? (fun h2 => h2.name == h.name) = some h := by
  induction hs with
  | nil => cases hh
  | cons a as ih =>
    rcases List.mem_cons.mp hh with rfl | hmem
    · exact List.find?_cons_of_pos as (by simp)
    · have hne : ¬(a.name == h.name) = true := by
        intro hbe
        rw [beq_iff_eq] at hbe
        exact (List.nodup_cons.mp hnd).1
          (List.mem_map.mpr ⟨h, hmem, hbe.symm⟩)
      rw [List.find?_cons_of_neg as hne]
      exact ih (List.nodup_cons.mp hnd).2 hmem

theorem residentPrefsIn_eq (res : List Resident) (r : Resident)
    (hnd : (res.map Resident.name).Nodup) (hr : r ∈ res) :
    residentPrefsIn res r.name = r.prefs := by
  unfold residentPrefsIn
  rw [find?_resident_name res r hnd hr]
  rfl

theorem foldl_erase_mem_iff (a : String) :
    ∀ (names l : List String), a ∉ names →
      (a ∈ names.foldl List.erase l ↔ a ∈ l) := by
  intro names
  induction names with
  | nil => intro l hno; rw [List.foldl_nil]
  | cons b bs ih =>
    intro l hno
    rw [List.foldl_cons]
    have hab : a ≠ b := fun hab => hno (hab ▸ List.mem_cons_self b bs)
    rw [ih (l.erase b) (fun hmem => hno (List.mem_cons_of_mem b hmem))]
    exact List.mem_erase_of_ne hab

theorem contains_iff_mem (l : List String) (a : String) :
    l.contains a = true ↔ a ∈ l := List.elem_iff

theorem reciprocity_after_recip_passes (g4 : HospitalResident)
    (hc : g4.clean = true)
    (hrn : (g4.residents.map Resident.name).Nodup)
    (hhn : (g4.hospitals.map Hospital.name).Nodup)
    (hrp : ∀ r ∈ g4.residents, r.prefs.Nodup) :
    ∀ h ∈ (check_inputs_player_reciprocated_all_prefs
        (check_inputs_player_prefs_all_reciprocated g4).1).1.hospitals,
      ∀ r ∈ (check_inputs_player_reciprocated_all_prefs
        (check_inputs_player_prefs_all_reciprocated g4).1).1.residents,
        (r.name ∈ h.prefs ↔ h.name ∈ r.prefs) := by
  obtain ⟨hA1, hA2⟩ := passA_clean g4 hc
  have hc5 : (check_inputs_player_prefs_all_reciprocated g4).1.clean =
      true := hc
  have hrn5 : ((check_inputs_player_prefs_all_reciprocated
      g4).1.residents.map Resident.name).Nodup := by
    rw [hA1]
    exact hrn
  have hrp5 : ∀ r ∈ (check_inputs_player_prefs_all_reciprocated
      g4).1.residents, r.prefs.Nodup := by
    rw [hA1]
    exact hrp
  have hhn5 : ((check_inputs_player_prefs_all_reciprocated
      g4).1.hospitals.map Hospital.name).Nodup := by
    rw [hA2, map_name_hospitals_update]
    exact hhn
  obtain ⟨hB1, hB2⟩ := passB_clean _ hc5 hrn5 hrp5 hhn5
  intro h hh r hr
  rw [hB1, hA2] at hh
  rw [hB2, hA1] at hr
  obtain ⟨h4, hh4, rfl⟩ := List.mem_map.mp hh
  obtain ⟨r4, hr4, rfl⟩ := List.mem_map.mp hr
  have hres : residentPrefsIn g4.residents r4.name = r4.prefs :=
    residentPrefsIn_eq g4.residents r4 hrn hr4
  have hkeep : keepB (check_inputs_player_prefs_all_reciprocated
      g4).1.hospitals r4.name h4.name =
      (h4.prefs.filter (fun rn =>
        (residentPrefsIn g4.residents rn).contains h4.name)).contains
        r4.name := by
    unfold keepB
    have hfind := find?_hospital_name
      (check_inputs_player_prefs_all_reciprocated g4).1.hospitals
      { h4 with prefs := h4.prefs.filter (fun rn =>
          (residentPrefsIn g4.residents rn).contains h4.name) }
      hhn5 (by
        rw [hA2]
        exact List.mem_map.mpr ⟨h4, hh4, rfl⟩)
    rw [hfind]
  show r4.name ∈ h4.prefs.filter _ ↔ h4.name ∈ r4.prefs.filter _
  rw [List.mem_filter, List.mem_filter, hkeep, hres]
  constructor
  · rintro ⟨hm1, hm2⟩
    rw [contains_iff_mem] at hm2
    refine ⟨hm2, ?_⟩
    rw [contains_iff_mem, List.mem_filter, hres]
    exact ⟨hm1, by
      rw [contains_iff_mem]
      exact hm2⟩
  · rintro ⟨hm1, hm2⟩
    rw [contains_iff_mem, List.mem_filter, hres] at hm2
    refine ⟨hm2.1, ?_⟩
    rw [contains_iff_mem]
    exact hm1

theorem reciprocity_after_capacity (g6 : HospitalResident)
    (hc : g6.clean = true)
    (hhn : (g6.hospitals.map Hospital.name).Nodup)
    (hrecip : ∀ h ∈ g6.hospitals, ∀ r ∈ g6.residents,
      (r.name ∈ h.prefs ↔ h.name ∈ r.prefs)) :
    ∀ h ∈ (check_inputs_player_capacity g6).1.hospitals,
      ∀ r ∈ (check_inputs_player_capacity g6).1.residents,
        (r.name ∈ h.prefs ↔ h.name ∈ r.prefs) := by
  rw [capacity_state_clean g6 hc]
  intro h hh r hr
  obtain ⟨r6, hr6, rfl⟩ := List.mem_map.mp hr
  have hhmem := List.mem_filter.mp hh
  have hnotbad : h.name ∉ (g6.hospitals.filter (fun h2 =>
      decide (h2.capacity < 1))).map Hospital.name := by
    intro hmem
    obtain ⟨hb, hbmem, hbeq⟩ := List.mem_map.mp hmem
    have hbh : hb = h := List.inj_on_of_nodup_map hhn
      (List.mem_of_mem_filter hbmem) hhmem.1 hbeq
    subst hbh
    have h1 := (List.mem_filter.mp hbmem).2
    have h2 := hhmem.2
    rw [h1] at h2
    cases h2
  show r6.name ∈ h.prefs ↔ h.name ∈ List.foldl List.erase r6.prefs _
  rw [foldl_erase_mem_iff h.name _ r6.prefs hnotbad]
  exact hrecip h hhmem.1 r6 hr6

theorem check_inputs_clean_reciprocal (g0 : HospitalResident)
    (hc : g0.clean = true)
    (hrn : (g0.residents.map Resident.name).Nodup)
    (hhn : (g0.hospitals.map Hospital.name).Nodup) :
    ∀ h ∈ (g0.check_inputs).1.hospitals,
      ∀ r ∈ (g0.check_inputs).1.residents,
        (r.name ∈ h.prefs ↔ h.name ∈ r.prefs) := by
  have hc1 : (check_inputs_player_prefs_unique_residents g0).1.clean =
      true := hc
  have hc2 : (stateAfterUnique g0).clean = true := hc
  have hc3 : (check_inputs_player_prefs_all_in_party_residents
      (stateAfterUnique g0)).1.clean = true := hc
  have hc4 : (stateAfterInParty g0).clean = true := hc
  have e1 := pass_unique_residents_clean_fst g0 hc
  have e2 := pass_unique_hospitals_clean_fst _ hc1
  have e3 := pass_in_party_residents_clean_fst _ hc2
  have e4 := pass_in_party_hospitals_clean_fst _ hc3
  have r4eq : (stateAfterInParty g0).residents =
      (check_inputs_player_prefs_all_in_party_residents
        (stateAfterUnique g0)).1.residents := rfl
  have r3eq : (check_inputs_player_prefs_all_in_party_residents
      (stateAfterUnique g0)).1.residents =
      (stateAfterUnique g0).residents.map (fun r =>
        { r with prefs := r.prefs.filter (fun n =>
          ((stateAfterUnique g0).hospitals.map Hospital.name).contains
            n) }) := congrArg HospitalResident.residents e3
  have r2eq : (stateAfterUnique g0).residents =
      (check_inputs_player_prefs_unique_residents g0).1.residents := rfl
  have r1eq : (check_inputs_player_prefs_unique_residents g0).1.residents =
      g0.residents.map (fun r => { r with prefs := dedupFirst r.prefs }) :=
    congrArg HospitalResident.residents e1
  have hrn4 : ((stateAfterInParty g0).residents.map Resident.name).Nodup := by
    rw [r4eq, r3eq, map_name_residents_update, r2eq, r1eq,
      map_name_residents_update]
    exact hrn
  have hrp4 : ∀ r ∈ (stateAfterInParty g0).residents, r.prefs.Nodup := by
    rw [r4eq, r3eq]
    intro r hr
    obtain ⟨x, hx, rfl⟩ := List.mem_map.mp hr
    rw [r2eq, r1eq] at hx
    obtain ⟨y, hy, rfl⟩ := List.mem_map.mp hx
    exact (dedupFirst_nodup y.prefs).filter _
  have h4eq : (stateAfterInParty g0).hospitals =
      (check_inputs_player_prefs_all_in_party_residents
        (stateAfterUnique g0)).1.hospitals.map (fun h =>
          { h with prefs := h.prefs.filter (fun n =>
            ((check_inputs_player_prefs_all_in_party_residents
              (stateAfterUnique g0)).1.residents.map
                Resident.name).contains n) }) :=
    congrArg HospitalResident.hospitals e4
  have h3eq : (check_inputs_player_prefs_all_in_party_residents
      (stateAfterUnique g0)).1.hospitals =
      (stateAfterUnique g0).hospitals := rfl
  have h2eq : (stateAfterUnique g0).hospitals =
      (check_inputs_player_prefs_unique_residents g0).1.hospitals.map
        (fun h => { h with prefs := dedupFirst h.prefs }) :=
    congrArg HospitalResident.hospitals e2
  have h1eq : (check_inputs_player_prefs_unique_residents g0).1.hospitals =
      g0.hospitals := rfl
  have hhn4 : ((stateAfterInParty g0).hospitals.map Hospital.name).Nodup := by
    rw [h4eq, map_name_hospitals_update, h3eq, h2eq,
      map_name_hospitals_update, h1eq]
    exact hhn
  have hrecipS := reciprocity_after_recip_passes (stateAfterInParty g0)
    hc4 hrn4 hhn4 hrp4
  have hSh : (sanitizedBeforeNonempty g0).hospitals =
      (check_inputs_player_prefs_all_reciprocated
        (stateAfterInParty g0)).1.hospitals := rfl
  have hhnS : ((sanitizedBeforeNonempty g0).hospitals.map
      Hospital.name).Nodup := by
    rw [hSh, (passA_clean (stateAfterInParty g0) hc4).2,
      map_name_hospitals_update]
    exact hhn4
  have hcS : (sanitizedBeforeNonempty g0).clean = true := hc
  have hfin := reciprocity_after_capacity (sanitizedBeforeNonempty g0)
    hcS hhnS (fun h hh r hr => hrecipS h hh r hr)
  intro h hh r hr
  exact hfin h hh r hr

/-- C9: after construction with clean enabled, the remaining preference
lists are fully reciprocal: a resident appears in the list of a remaining
hospital exactly when that hospital appears in the list of that remaining
resident — the second reciprocity pass never reintroduces an asymmetry the
first removed. -/
theorem init_clean_reciprocal (residents : List Resident)
    (hospitals : List Hospital)
    (hrn : (residents.map Resident.name).Nodup)
    (hhn : (hospitals.map Hospital.name).Nodup) :
    ∀ h ∈ ((HospitalResident.init residents hospitals true).1).hospitals,
      ∀ r ∈ ((HospitalResident.init residents hospitals true).1).residents,
        (r.name ∈ h.prefs ↔ h.name ∈ r.prefs) :=
  check_inputs_clean_reciprocal
    (HospitalResident.mk residents hospitals true none none) rfl hrn hhn

/-- Witness for C9: a concrete clean construction with an asymmetric
ranking ends fully reciprocal. -/
theorem init_clean_reciprocal_witness :
    ((([⟨"R1", ["H1", "H2"], none⟩] : List Resident).map
        Resident.name).Nodup ∧
      (([⟨"H1", 1, ["R1"], []⟩, ⟨"H2", 1, [], []⟩] : List Hospital).map
        Hospital.name).Nodup) ∧
    (∀ h ∈ ((HospitalResident.init [⟨"R1", ["H1", "H2"], none⟩]
        [⟨"H1", 1, ["R1"], []⟩, ⟨"H2", 1, [], []⟩] true).1).hospitals,
      ∀ r ∈ ((HospitalResident.init [⟨"R1", ["H1", "H2"], none⟩]
        [⟨"H1", 1, ["R1"], []⟩, ⟨"H2", 1, [], []⟩] true).1).residents,
        (r.name ∈ h.prefs ↔ h.name ∈ r.prefs)) :=
  ⟨⟨by decide, by decide⟩,
   init_clean_reciprocal [⟨"R1", ["H1", "H2"], none⟩]
     [⟨"H1", 1, ["R1"], []⟩, ⟨"H2", 1, [], []⟩] (by decide) (by decide)⟩

theorem mapM_none_of_mem {α β : Type} (f : α → Option β) (l : List α)
    (hx : ∃ x ∈ l, f x = none) : l.mapM f = none := by
  induction l with
  | nil => simp at hx
  | cons a as ih =>
    obtain ⟨x, hx1, hx2⟩ := hx
    rw [List.mapM_cons]
    rcases List.mem_cons.mp hx1 with rfl | hmem
    · rw [hx2]
      rfl
    · cases hfa : f a with
      | none => rfl
      | some b =>
        rw [ih ⟨x, hmem, hx2⟩]
        rfl

theorem mapM_mem_of_some {α β : Type} (f : α → Option β) :
    ∀ (l : List α) (out : List β), l.mapM f = some out →
      ∀ y ∈ out, ∃ x ∈ l, f x = some y := by
  intro l
  induction l with
  | nil =>
    intro out h y hy
    simp only [List.mapM_nil] at h
    cases h
    simp at hy
  | cons a as ih =>
    intro out h y hy
    rw [List.mapM_cons] at h
    cases hfa : f a with
    | none => rw [hfa] at h; cases h
    | some b =>
      rw [hfa] at h
      cases has : as.mapM f with
      | none => rw [has] at h; cases h
      | some bs =>
        rw [has] at h
        cases h
        rcases List.mem_cons.mp hy with rfl | hmem
        · exact ⟨a, List.mem_cons_self a as, hfa⟩
        · obtain ⟨x, hx1, hx2⟩ := ih bs has y hmem
          exact ⟨x, List.mem_cons_of_mem a hx1, hx2⟩

theorem dictGet_eq_none {α : Type} (d : List (String × α)) (n : String)
    (h : ∀ p ∈ d, p.1 ≠ n) : dictGet d n = none := by
  unfold dictGet
  rw [List.find?_eq_none.mpr]
  · rfl
  · intro p hp
    simpa using h p hp

theorem make_instances_some {rp hp : List (String × List String)}
    {caps : List (String × Int)} {rd : List (String × Resident)}
    {hd : List (String × Hospital)}
    (h : make_instances rp hp caps = some (rd, hd)) :
    rd = rp.map (fun p => (p.1, Resident.mk p.1 [] none)) ∧
    hp.mapM (fun p => (dictGet caps p.1).map (fun c =>
      (p.1, Hospital.mk p.1 c [] []))) = some hd := by
  unfold make_instances at h
  cases hm : hp.mapM (fun p => (dictGet caps p.1).map (fun c =>
      (p.1, Hospital.mk p.1 c [] []))) with
  | none => rw [hm] at h; cases h
  | some hd0 =>
    rw [hm] at h
    simp only [Option.map_some', Option.some.injEq, Prod.mk.injEq] at h
    exact ⟨h.1.symm, by rw [h.2]⟩

theorem make_players_dangling_none
    (rp hp : List (String × List String)) (caps : List (String × Int))
    (hdangle : (∃ p ∈ rp, ∃ hn ∈ p.2, ∀ q ∈ hp, q.1 ≠ hn) ∨
               (∃ q ∈ hp, ∃ rn ∈ q.2, ∀ p ∈ rp, p.1 ≠ rn)) :
    make_players rp hp caps = none := by
  unfold make_players
  cases hmi : make_instances rp hp caps with
  | none => rfl
  | some pair =>
    obtain ⟨rd, hd⟩ := pair
    obtain ⟨hrd, hhd⟩ := make_instances_some hmi
    simp only [Option.pure_def, Option.bind_eq_bind, Option.some_bind]
    rcases hdangle with ⟨p, hp1, hn, hn1, hall⟩ | ⟨q, hq1, rn, hrn1, hall⟩
    · have hkey : dictGet hd hn = none := by
        refine dictGet_eq_none hd hn (fun y hy => ?_)
        obtain ⟨x, hx1, hx2⟩ := mapM_mem_of_some _ hp hd hhd y hy
        cases hg : dictGet caps x.1 with
        | none => rw [hg] at hx2; cases hx2
        | some c =>
          rw [hg] at hx2
          cases hx2
          exact hall x hx1
      have hinner : p.2.mapM (fun n =>
          (dictGet hd n).map (fun _ => n)) = none := by
        refine mapM_none_of_mem _ _ ⟨hn, hn1, ?_⟩
        rw [hkey]
        rfl
      have houter : rp.mapM (buildResident hd) = none := by
        refine mapM_none_of_mem _ _ ⟨p, hp1, ?_⟩
        unfold buildResident
        rw [hinner]
        rfl
      rw [houter]
      rfl
    · cases hres : rp.mapM (buildResident hd) with
      | none => rfl
      | some residents =>
        simp only [Option.some_bind]
        have hkey : dictGet rd rn = none := by
          refine dictGet_eq_none rd rn (fun y hy => ?_)
          rw [hrd] at hy
          obtain ⟨x, hx1, hx2⟩ := List.mem_map.mp hy
          cases hx2
          exact hall x hx1
        have hinner : q.2.mapM (fun n =>
            (dictGet rd n).map (fun _ => n)) = none := by
          refine mapM_none_of_mem _ _ ⟨rn, hrn1, ?_⟩
          rw [hkey]
          rfl
        have houter : hp.mapM (buildHospital rd hd) = none := by
          refine mapM_none_of_mem _ _ ⟨q, hq1, ?_⟩
          unfold buildHospital
          show (q.2.mapM _ >>= _) = none
          rw [hinner]
          rfl
        rw [houter]
        rfl

/-- C10: through the dictionary constructor, a preference entry naming a
counterpart absent from the opposite dictionary is a key-lookup failure
while the players are being built, so the game is never constructed and
the dangling-preference detection and repair of the sanitizer never runs:
the repair is unreachable through `create_from_dictionaries`. -/
theorem create_from_dictionaries_dangling_fails
    (rp hp : List (String × List String)) (caps : List (String × Int))
    (clean : Bool)
    (hdangle : (∃ p ∈ rp, ∃ hn ∈ p.2, ∀ q ∈ hp, q.1 ≠ hn) ∨
               (∃ q ∈ hp, ∃ rn ∈ q.2, ∀ p ∈ rp, p.1 ≠ rn)) :
    make_players rp hp caps = none ∧
      create_from_dictionaries rp hp caps clean = none := by
  have h1 := make_players_dangling_none rp hp caps hdangle
  refine ⟨h1, ?_⟩
  unfold create_from_dictionaries
  rw [h1]
  rfl

theorem upd_same {α : Type} (f : String → α) (a : String) (v : α) :
    upd f a v a = v := by
  unfold upd
  rw [if_pos rfl]

theorem upd_other {α : Type} (f : String → α) (a : String) (v : α)
    (x : String) (hx : x ≠ a) : upd f a v x = f x := by
  unfold upd
  rw [if_neg hx]

theorem ctx_rprefs_eq (g : HospitalResident)
    (hnd : (g.residents.map Resident.name).Nodup) (r : Resident)
    (hr : r ∈ g.residents) : (ctxOf g).rprefs r.name = r.prefs := by
  show ((g.residents.find? (fun r2 => r2.name == r.name)).map
    Resident.prefs).getD [] = r.prefs
  rw [find?_resident_name g.residents r hnd hr]
  rfl

theorem ctx_hprefs_eq (g : HospitalResident)
    (hnd : (g.hospitals.map Hospital.name).Nodup) (h : Hospital)
    (hh : h ∈ g.hospitals) : (ctxOf g).hprefs h.name = h.prefs := by
  show ((g.hospitals.find? (fun h2 => h2.name == h.name)).map
    Hospital.prefs).getD [] = h.prefs
  rw [find?_hospital_name g.hospitals h hnd hh]
  rfl

theorem ctx_capacity_eq (g : HospitalResident)
    (hnd : (g.hospitals.map Hospital.name).Nodup) (h : Hospital)
    (hh : h ∈ g.hospitals) : (ctxOf g).capacity h.name = h.capacity := by
  show ((g.hospitals.find? (fun h2 => h2.name == h.name)).map
    Hospital.capacity).getD 0 = h.capacity
  rw [find?_hospital_name g.hospitals h hnd hh]
  rfl

theorem ctxWF_of_WFGame (g : HospitalResident) (wf : WFGame g) :
    CtxWF (ctxOf g) := by
  obtain ⟨hrn, hhn, hrp, hhp, hrecR, hrecH, hcap⟩ := wf
  refine ⟨hrn, hhn, ?_, ?_, ?_, ?_, ?_⟩
  · intro rn hrn2
    obtain ⟨r, hr, rfl⟩ := List.mem_map.mp hrn2
    rw [ctx_rprefs_eq g hrn r hr]
    exact hrp r hr
  · intro hn hhn2
    obtain ⟨h, hh, rfl⟩ := List.mem_map.mp hhn2
    rw [ctx_hprefs_eq g hhn h hh]
    exact hhp h hh
  · intro rn hrn2 hn hhn2
    obtain ⟨r, hr, rfl⟩ := List.mem_map.mp hrn2
    rw [ctx_rprefs_eq g hrn r hr] at hhn2
    obtain ⟨h, hh, heq, hmem⟩ := hrecR r hr hn hhn2
    refine ⟨List.mem_map.mpr ⟨h, hh, heq⟩, ?_⟩
    have he2 := ctx_hprefs_eq g hhn h hh
    rw [heq] at he2
    rw [he2]
    exact hmem
  · intro hn hhn2 rn hrn2
    obtain ⟨h, hh, rfl⟩ := List.mem_map.mp hhn2
    rw [ctx_hprefs_eq g hhn h hh] at hrn2
    obtain ⟨r, hr, heq, hmem⟩ := hrecH h hh rn hrn2
    refine ⟨List.mem_map.mpr ⟨r, hr, heq⟩, ?_⟩
    have he2 := ctx_rprefs_eq g hrn r hr
    rw [heq] at he2
    rw [he2]
    exact hmem
  · intro hn hhn2
    obtain ⟨h, hh, rfl⟩ := List.mem_map.mp hhn2
    rw [ctx_capacity_eq g hhn h hh]
    exact hcap h hh

theorem worst_fold_mem (prefs : List String) :
    ∀ (xs : List String) (acc : String),
      xs.foldl (fun acc y =>
        if prefs.indexOf acc < prefs.indexOf y then y else acc) acc ∈
        acc :: xs := by
  intro xs
  induction xs with
  | nil => intro acc; exact List.mem_cons_self _ _
  | cons z zs ih =>
    intro acc
    rw [List.foldl_cons]
    have h0 := ih (if prefs.indexOf acc < prefs.indexOf z then z else acc)
    rcases List.mem_cons.mp h0 with heq | hmem
    · rw [heq]
      by_cases hc : prefs.indexOf acc < prefs.indexOf z
      · rw [if_pos hc]
        exact List.mem_cons_of_mem _ (List.mem_cons_self _ _)
      · rw [if_neg hc]
        exact List.mem_cons_self _ _
    · exact List.mem_cons_of_mem _ (List.mem_cons_of_mem _ hmem)

theorem worst_fold_le (prefs : List String) :
    ∀ (xs : List String) (acc : String), ∀ y ∈ acc :: xs,
      prefs.indexOf y ≤ prefs.indexOf
        (xs.foldl (fun acc y =>
          if prefs.indexOf acc < prefs.indexOf y then y else acc) acc) := by
  intro xs
  induction xs with
  | nil =>
    intro acc y hy
    rcases List.mem_cons.mp hy with rfl | h0
    · exact Nat.le_refl _
    · cases h0
  | cons z zs ih =>
    intro acc y hy
    rw [List.foldl_cons]
    have hacc : prefs.indexOf acc ≤ prefs.indexOf
        (if prefs.indexOf acc < prefs.indexOf z then z else acc) := by
      by_cases hc : prefs.indexOf acc < prefs.indexOf z
      · rw [if_pos hc]
        exact Nat.le_of_lt hc
      · rw [if_neg hc]
    have hz : prefs.indexOf z ≤ prefs.indexOf
        (if prefs.indexOf acc < prefs.indexOf z then z else acc) := by
      by_cases hc : prefs.indexOf acc < prefs.indexOf z
      · rw [if_pos hc]
      · rw [if_neg hc]
        exact Nat.le_of_not_lt hc
    have hpick := ih (if prefs.indexOf acc < prefs.indexOf z then z else acc)
    rcases List.mem_cons.mp hy with rfl | hmem
    · exact Nat.le_trans hacc (hpick _ (List.mem_cons_self _ _))
    · rcases List.mem_cons.mp hmem with rfl | hmem2
      · exact Nat.le_trans hz (hpick _ (List.mem_cons_self _ _))
      · exact hpick y (List.mem_cons_of_mem _ hmem2)

theorem worstOf_mem (prefs : List String) (l : List String) (hl : l ≠ []) :
    worstOf prefs l ∈ l := by
  cases l with
  | nil => cases hl rfl
  | cons x xs => exact worst_fold_mem prefs xs x

theorem worstOf_le (prefs : List String) (l : List String) (y : String)
    (hy : y ∈ l) : prefs.indexOf y ≤ prefs.indexOf (worstOf prefs l) := by
  cases l with
  | nil => cases hy
  | cons x xs => exact worst_fold_le prefs xs x y hy

theorem findEligibleRO_some (C : AlgCtx) (σ : ROState) (rn : String)
    (h : findEligibleRO C σ = some rn) :
    rn ∈ C.resNames ∧ σ.rmatch rn = none ∧
      σ.idx rn < (C.rprefs rn).length := by
  unfold findEligibleRO at h
  have h1 := List.mem_of_find?_eq_some h
  have h2 := List.find?_some h
  rw [Bool.and_eq_true] at h2
  exact ⟨h1, Option.isNone_iff_eq_none.mp h2.1, of_decide_eq_true h2.2⟩

theorem findEligibleRO_none (C : AlgCtx) (σ : ROState)
    (h : findEligibleRO C σ = none) :
    ∀ rn ∈ C.resNames, σ.rmatch rn ≠ none ∨
      ¬(σ.idx rn < (C.rprefs rn).length) := by
  intro rn hrn
  unfold findEligibleRO at h
  have h0 := List.find?_eq_none.mp h rn hrn
  by_cases hm : σ.rmatch rn = none
  · right
    intro hlt
    exact h0 (by rw [hm]; simp [hlt])
  · left
    exact hm

theorem sum_map_lt (f g2 : String → Nat) (a : String) :
    ∀ (l : List String), l.Nodup → a ∈ l → g2 a < f a →
      (∀ x ∈ l, x ≠ a → g2 x = f x) →
      (l.map g2).sum < (l.map f).sum := by
  intro l
  induction l with
  | nil =>
    intro hnd ha hlt heq
    cases ha
  | cons x xs ih =>
    intro hnd ha hlt heq
    rw [List.map_cons, List.map_cons, List.sum_cons, List.sum_cons]
    rcases List.mem_cons.mp ha with rfl | hmem
    · have hmapeq : xs.map g2 = xs.map f := List.map_congr_left (fun y hy =>
        heq y (List.mem_cons_of_mem _ hy)
          (fun hya => (List.nodup_cons.mp hnd).1 (hya ▸ hy)))
      rw [hmapeq]
      exact Nat.add_lt_add_right hlt _
    · have hx : x ≠ a := fun hxa => (List.nodup_cons.mp hnd).1 (hxa ▸ hmem)
      rw [heq x (List.mem_cons_self _ _) hx]
      exact Nat.add_lt_add_left
        (ih (List.nodup_cons.mp hnd).2 hmem hlt
          (fun y hy hya => heq y (List.mem_cons_of_mem _ hy) hya)) _

theorem stepRO_idx (C : AlgCtx) (σ σ2 : ROState)
    (h : stepRO C σ = some σ2) :
    ∃ rn, findEligibleRO C σ = some rn ∧
      σ2.idx = upd σ.idx rn (σ.idx rn + 1) := by
  unfold stepRO at h
  cases hf : findEligibleRO C σ with
  | none => rw [hf] at h; cases h
  | some rn =>
    rw [hf] at h
    dsimp only at h
    refine ⟨rn, rfl, ?_⟩
    split at h
    · cases h; rfl
    · split at h
      · cases h; rfl
      · cases h; rfl

theorem stepRO_measure_lt (C : AlgCtx) (hnd : C.resNames.Nodup)
    (σ σ2 : ROState) (h : stepRO C σ = some σ2) :
    measureRO C σ2 < measureRO C σ := by
  obtain ⟨rn, hf, hidx⟩ := stepRO_idx C σ σ2 h
  obtain ⟨hmem, hnone, hlt⟩ := findEligibleRO_some C σ rn hf
  unfold measureRO
  refine sum_map_lt _ _ rn _ hnd hmem ?_ ?_
  · rw [hidx, upd_same]
    omega
  · intro x hx hxa
    rw [hidx, upd_other _ _ _ x hxa]

theorem stepRO_none_of_measure (C : AlgCtx) (σ : ROState)
    (hm : measureRO C σ = 0) : stepRO C σ = none := by
  unfold stepRO
  cases hf : findEligibleRO C σ with
  | none => rfl
  | some rn =>
    exfalso
    obtain ⟨hmem, hnone, hlt⟩ := findEligibleRO_some C σ rn hf
    have h0 : (C.rprefs rn).length - σ.idx rn ∈
        C.resNames.map (fun rn => (C.rprefs rn).length - σ.idx rn) :=
      List.mem_map.mpr ⟨rn, hmem, rfl⟩
    have h1 := List.sum_eq_zero_iff.mp hm _ h0
    omega

theorem runRO_fix (C : AlgCtx) (hnd : C.resNames.Nodup) :
    ∀ (n : Nat) (σ : ROState), measureRO C σ ≤ n →
      stepRO C (runRO C n σ) = none := by
  intro n
  induction n with
  | zero =>
    intro σ hm
    show stepRO C σ = none
    exact stepRO_none_of_measure C σ (Nat.le_zero.mp hm)
  | succ n ih =>
    intro σ hm
    rw [runRO]
    cases hs : stepRO C σ with
    | none => exact hs
    | some σ2 =>
      have hlt := stepRO_measure_lt C hnd σ σ2 hs
      exact ih σ2 (by omega)

theorem nodup_indexOf_getElem {l : List String} (hnd : l.Nodup) (i : Nat)
    (hi : i < l.length) : l.indexOf l[i] = i := by
  have h1 : l.indexOf l[i] < l.length :=
    List.indexOf_lt_length.mpr (List.getElem_mem hi)
  exact (List.Nodup.getElem_inj_iff hnd).mp (List.getElem_indexOf h1)

theorem ROInv_init (C : AlgCtx) (wf : CtxWF C) : ROInv C initRO := by
  refine ⟨?_, ?_, ?_, ?_, ?_, ?_⟩
  · intro rn h0
    exact Nat.zero_le _
  · intro hn h0
    exact List.nodup_nil
  · intro hn h0
    have := wf.capPos hn h0
    show ((List.length [] : Nat) : Int) ≤ _
    simp only [List.length_nil, Int.natCast_zero]
    omega
  · intro hn h0 rn hrn
    cases hrn
  · intro rn h0 hn hmm
    cases hmm
  · intro rn h0 hn hmem hidx hne
    exact absurd hidx (by simp [initRO])

theorem ROInv_accept (C : AlgCtx) (wf : CtxWF C) (σ : ROState)
    (inv : ROInv C σ) (rn hn : String)
    (hrmem : rn ∈ C.resNames) (hrnone : σ.rmatch rn = none)
    (hrlt : σ.idx rn < (C.rprefs rn).length)
    (hpmem : hn ∈ C.rprefs rn)
    (hidxof : (C.rprefs rn).indexOf hn = σ.idx rn)
    (hcap : ((σ.held hn).length : Int) < C.capacity hn) :
    ROInv C { idx := upd σ.idx rn (σ.idx rn + 1),
              rmatch := upd σ.rmatch rn (some hn),
              held := upd σ.held hn (rn :: σ.held hn) } := by
  obtain ⟨hhos, hrh⟩ := wf.recipR rn hrmem hn hpmem
  have hnotheld : ∀ hn2 ∈ C.hosNames, rn ∉ σ.held hn2 := by
    intro hn2 hh2 hmem2
    have h0 := (inv.heldMem hn2 hh2 rn hmem2).2.2
    rw [hrnone] at h0
    cases h0
  refine ⟨?_, ?_, ?_, ?_, ?_, ?_⟩ <;> dsimp only
  · intro x hx
    by_cases hxr : x = rn
    · subst hxr
      rw [upd_same]
      omega
    · rw [upd_other _ _ _ x hxr]
      exact inv.idxLe x hx
  · intro x hx
    by_cases hxh : x = hn
    · subst hxh
      rw [upd_same]
      exact List.nodup_cons.mpr ⟨hnotheld x hx, inv.heldNodup x hx⟩
    · rw [upd_other _ _ _ x hxh]
      exact inv.heldNodup x hx
  · intro x hx
    by_cases hxh : x = hn
    · subst hxh
      rw [upd_same]
      show (((rn :: σ.held x).length : Nat) : Int) ≤ _
      rw [List.length_cons]
      push_cast
      omega
    · rw [upd_other _ _ _ x hxh]
      exact inv.heldCap x hx
  · intro x hx mn hmn
    by_cases hxh : x = hn
    · subst hxh
      rw [upd_same] at hmn
      rcases List.mem_cons.mp hmn with rfl | hmn2
      · exact ⟨hrmem, hrh, by rw [upd_same]⟩
      · obtain ⟨ha, hb, hcc⟩ := inv.heldMem x hx mn hmn2
        refine ⟨ha, hb, ?_⟩
        by_cases hmr : mn = rn
        · subst hmr
          rw [hrnone] at hcc
          cases hcc
        · rw [upd_other _ _ _ mn hmr]
          exact hcc
    · rw [upd_other _ _ _ x hxh] at hmn
      obtain ⟨ha, hb, hcc⟩ := inv.heldMem x hx mn hmn
      refine ⟨ha, hb, ?_⟩
      by_cases hmr : mn = rn
      · subst hmr
        rw [hrnone] at hcc
        cases hcc
      · rw [upd_other _ _ _ mn hmr]
        exact hcc
  · intro x hx hn2 hm2
    by_cases hxr : x = rn
    · subst hxr
      rw [upd_same] at hm2
      cases hm2
      refine ⟨hhos, ?_, hpmem, ?_⟩
      · rw [upd_same]
        exact List.mem_cons_self _ _
      · rw [upd_same, hidxof]
        omega
    · rw [upd_other _ _ _ x hxr] at hm2
      obtain ⟨ha, hb, hcc, hd⟩ := inv.matchMem x hx hn2 hm2
      refine ⟨ha, ?_, hcc, ?_⟩
      · by_cases hh2 : hn2 = hn
        · subst hh2
          rw [upd_same]
          exact List.mem_cons_of_mem _ hb
        · rw [upd_other _ _ _ hn2 hh2]
          exact hb
      · rw [upd_other _ _ _ x hxr]
        exact hd
  · intro x hx hn2 hp2 hidx2 hne2
    by_cases hxr : x = rn
    · subst hxr
      rw [upd_same] at hidx2
      by_cases hh2 : hn2 = hn
      · subst hh2
        exfalso
        rw [upd_same] at hne2
        exact hne2 rfl
      · have hidxne : (C.rprefs x).indexOf hn2 ≠ σ.idx x := by
          intro heq0
          apply hh2
          rw [← hidxof] at heq0
          exact (List.indexOf_inj hp2 hpmem).mp heq0
        have hidx3 : (C.rprefs x).indexOf hn2 < σ.idx x := by omega
        have hold := inv.rejected x hx hn2 hp2 hidx3
          (by rw [hrnone]; intro hc0; cases hc0)
        rw [upd_other _ _ _ hn2 hh2]
        exact hold
    · rw [upd_other _ _ _ x hxr] at hidx2
      have hnex : σ.rmatch x ≠ some hn2 := by
        intro hc0
        apply hne2
        rw [upd_other _ _ _ x hxr]
        exact hc0
      have hold := inv.rejected x hx hn2 hp2 hidx2 hnex
      by_cases hh2 : hn2 = hn
      · subst hh2
        exfalso
        have h0 := hold.1
        omega
      · rw [upd_other _ _ _ hn2 hh2]
        exact hold

theorem ROInv_bump (C : AlgCtx) (wf : CtxWF C) (σ : ROState)
    (inv : ROInv C σ) (rn hn wn : String)
    (hrmem : rn ∈ C.resNames) (hrnone : σ.rmatch rn = none)
    (hrlt : σ.idx rn < (C.rprefs rn).length)
    (hpmem : hn ∈ C.rprefs rn)
    (hidxof : (C.rprefs rn).indexOf hn = σ.idx rn)
    (hcap : ¬((σ.held hn).length : Int) < C.capacity hn)
    (hwn : wn = worstOf (C.hprefs hn) (σ.held hn))
    (hpref : prefersIn (C.hprefs hn) rn wn = true) :
    ROInv C { idx := upd σ.idx rn (σ.idx rn + 1),
              rmatch := upd (upd σ.rmatch wn none) rn (some hn),
              held := upd σ.held hn (rn :: (σ.held hn).erase wn) } := by
  obtain ⟨hhos, hrh⟩ := wf.recipR rn hrmem hn hpmem
  have hcapPos := wf.capPos hn hhos
  have hcap2 : C.capacity hn ≤ ((σ.held hn).length : Int) := Int.not_lt.mp hcap
  have hlen1 : 1 ≤ (σ.held hn).length := by omega
  have hne0 : σ.held hn ≠ [] := List.length_pos.mp (by omega)
  have hwmem : wn ∈ σ.held hn := by
    rw [hwn]
    exact worstOf_mem _ _ hne0
  obtain ⟨hwres, hwpref, hwmatch⟩ := inv.heldMem hn hhos wn hwmem
  have hwr : wn ≠ rn := by
    intro h0
    rw [h0, hrnone] at hwmatch
    cases hwmatch
  have hnotheld : ∀ hn2 ∈ C.hosNames, rn ∉ σ.held hn2 := by
    intro hn2 hh2 hmem2
    have h0 := (inv.heldMem hn2 hh2 rn hmem2).2.2
    rw [hrnone] at h0
    cases h0
  have hprefi : (C.hprefs hn).indexOf rn < (C.hprefs hn).indexOf wn :=
    of_decide_eq_true hpref
  have hlenEq : (rn :: (σ.held hn).erase wn).length = (σ.held hn).length := by
    rw [List.length_cons, List.length_erase_of_mem hwmem]
    omega
  have hNewLt : ∀ m ∈ rn :: (σ.held hn).erase wn,
      (C.hprefs hn).indexOf m < (C.hprefs hn).indexOf wn := by
    intro m hm
    rcases List.mem_cons.mp hm with rfl | hm2
    · exact hprefi
    · obtain ⟨hmw, hm3⟩ :=
        (List.Nodup.mem_erase_iff (inv.heldNodup hn hhos)).mp hm2
      have hle := worstOf_le (C.hprefs hn) (σ.held hn) m hm3
      rw [← hwn] at hle
      have hne1 : (C.hprefs hn).indexOf m ≠ (C.hprefs hn).indexOf wn := by
        intro he
        exact hmw
          ((List.indexOf_inj (inv.heldMem hn hhos m hm3).2.1 hwpref).mp he)
      omega
  refine ⟨?_, ?_, ?_, ?_, ?_, ?_⟩ <;> dsimp only
  · intro x hx
    by_cases hxr : x = rn
    · subst hxr
      rw [upd_same]
      omega
    · rw [upd_other _ _ _ x hxr]
      exact inv.idxLe x hx
  · intro x hx
    by_cases hxh : x = hn
    · subst hxh
      rw [upd_same]
      refine List.nodup_cons.mpr ⟨?_, (inv.heldNodup x hx).erase wn⟩
      intro hc0
      exact hnotheld x hx (List.mem_of_mem_erase hc0)
    · rw [upd_other _ _ _ x hxh]
      exact inv.heldNodup x hx
  · intro x hx
    by_cases hxh : x = hn
    · subst hxh
      rw [upd_same]
      show (((rn :: (σ.held x).erase wn).length : Nat) : Int) ≤ _
      rw [hlenEq]
      exact inv.heldCap x hx
    · rw [upd_other _ _ _ x hxh]
      exact inv.heldCap x hx
  · intro x hx mn hmn
    by_cases hxh : x = hn
    · subst hxh
      rw [upd_same] at hmn
      rcases List.mem_cons.mp hmn with rfl | hmn2
      · exact ⟨hrmem, hrh, by rw [upd_same]⟩
      · obtain ⟨hmnw, hmn3⟩ :=
          (List.Nodup.mem_erase_iff (inv.heldNodup x hx)).mp hmn2
        obtain ⟨ha, hb, hcc⟩ := inv.heldMem x hx mn hmn3
        refine ⟨ha, hb, ?_⟩
        have hmr : mn ≠ rn := fun h0 => hnotheld x hx (h0 ▸ hmn3)
        rw [upd_other _ _ _ mn hmr, upd_other _ _ _ mn hmnw]
        exact hcc
    · rw [upd_other _ _ _ x hxh] at hmn
      obtain ⟨ha, hb, hcc⟩ := inv.heldMem x hx mn hmn
      have hmr : mn ≠ rn := fun h0 => hnotheld x hx (h0 ▸ hmn)
      have hmw : mn ≠ wn := by
        intro h0
        subst h0
        rw [hwmatch] at hcc
        injection hcc with h2
        exact hxh h2.symm
      refine ⟨ha, hb, ?_⟩
      rw [upd_other _ _ _ mn hmr, upd_other _ _ _ mn hmw]
      exact hcc
  · intro x hx hn2 hm2
    by_cases hxr : x = rn
    · subst hxr
      rw [upd_same] at hm2
      cases hm2
      refine ⟨hhos, ?_, hpmem, ?_⟩
      · rw [upd_same]
        exact List.mem_cons_self _ _
      · rw [upd_same, hidxof]
        omega
    · rw [upd_other _ _ _ x hxr] at hm2
      by_cases hxw : x = wn
      · subst hxw
        rw [upd_same] at hm2
        cases hm2
      · rw [upd_other _ _ _ x hxw] at hm2
        obtain ⟨ha, hb, hcc, hd⟩ := inv.matchMem x hx hn2 hm2
        refine ⟨ha, ?_, hcc, ?_⟩
        · by_cases hh2 : hn2 = hn
          · subst hh2
            rw [upd_same]
            exact List.mem_cons_of_mem _ ((List.mem_erase_of_ne hxw).mpr hb)
          · rw [upd_other _ _ _ hn2 hh2]
            exact hb
        · rw [upd_other _ _ _ x hxr]
          exact hd
  · intro x hx hn2 hp2 hidx2 hne2
    by_cases hxr : x = rn
    · subst hxr
      rw [upd_same] at hidx2
      by_cases hh2 : hn2 = hn
      · subst hh2
        exfalso
        rw [upd_same] at hne2
        exact hne2 rfl
      · have hidxne : (C.rprefs x).indexOf hn2 ≠ σ.idx x := by
          intro heq0
          apply hh2
          rw [← hidxof] at heq0
          exact (List.indexOf_inj hp2 hpmem).mp heq0
        have hidx3 : (C.rprefs x).indexOf hn2 < σ.idx x := by omega
        have hold := inv.rejected x hx hn2 hp2 hidx3
          (by rw [hrnone]; intro hc0; cases hc0)
        rw [upd_other _ _ _ hn2 hh2]
        exact hold
    · by_cases hxw : x = wn
      · subst hxw
        rw [upd_other _ _ _ x hxr] at hidx2
        by_cases hh2 : hn2 = hn
        · subst hh2
          rw [upd_same]
          refine ⟨?_, ?_⟩
          · show C.capacity hn2 ≤ (((rn :: (σ.held hn2).erase x).length : Nat) : Int)
            rw [hlenEq]
            exact hcap2
          · intro m hm
            exact hNewLt m hm
        · have hold := inv.rejected x hwres hn2 hp2 hidx2
            (by rw [hwmatch]; intro hc0; injection hc0 with h2; exact hh2 h2.symm)
          rw [upd_other _ _ _ hn2 hh2]
          exact hold
      · rw [upd_other _ _ _ x hxr] at hidx2
        have hnex : σ.rmatch x ≠ some hn2 := by
          intro hc0
          apply hne2
          rw [upd_other _ _ _ x hxr, upd_other _ _ _ x hxw]
          exact hc0
        have hold := inv.rejected x hx hn2 hp2 hidx2 hnex
        by_cases hh2 : hn2 = hn
        · subst hh2
          rw [upd_same]
          refine ⟨?_, ?_⟩
          · show C.capacity hn2 ≤ (((rn :: (σ.held hn2).erase wn).length : Nat) : Int)
            rw [hlenEq]
            exact hold.1
          · intro m hm
            exact Nat.lt_trans (hNewLt m hm) (hold.2 wn hwmem)
        · rw [upd_other _ _ _ hn2 hh2]
          exact hold

theorem ROInv_reject (C : AlgCtx) (wf : CtxWF C) (σ : ROState)
    (inv : ROInv C σ) (rn hn wn : String)
    (hrmem : rn ∈ C.resNames) (hrnone : σ.rmatch rn = none)
    (hrlt : σ.idx rn < (C.rprefs rn).length)
    (hpmem : hn ∈ C.rprefs rn)
    (hidxof : (C.rprefs rn).indexOf hn = σ.idx rn)
    (hcap : ¬((σ.held hn).length : Int) < C.capacity hn)
    (hwn : wn = worstOf (C.hprefs hn) (σ.held hn))
    (hpref : prefersIn (C.hprefs hn) rn wn = false) :
    ROInv C { idx := upd σ.idx rn (σ.idx rn + 1),
              rmatch := σ.rmatch, held := σ.held } := by
  obtain ⟨hhos, hrh⟩ := wf.recipR rn hrmem hn hpmem
  have hcapPos := wf.capPos hn hhos
  have hcap2 : C.capacity hn ≤ ((σ.held hn).length : Int) := Int.not_lt.mp hcap
  have hne0 : σ.held hn ≠ [] := List.length_pos.mp (by omega)
  have hwmem : wn ∈ σ.held hn := by
    rw [hwn]
    exact worstOf_mem _ _ hne0
  obtain ⟨hwres, hwpref, hwmatch⟩ := inv.heldMem hn hhos wn hwmem
  have hwr : wn ≠ rn := by
    intro h0
    rw [h0, hrnone] at hwmatch
    cases hwmatch
  have hprefle : ¬((C.hprefs hn).indexOf rn < (C.hprefs hn).indexOf wn) :=
    of_decide_eq_false hpref
  have hwrne : (C.hprefs hn).indexOf wn ≠ (C.hprefs hn).indexOf rn := by
    intro he
    exact hwr ((List.indexOf_inj hwpref hrh).mp he)
  have hstrict : (C.hprefs hn).indexOf wn < (C.hprefs hn).indexOf rn := by
    omega
  refine ⟨?_, ?_, ?_, ?_, ?_, ?_⟩ <;> dsimp only
  · intro x hx
    by_cases hxr : x = rn
    · subst hxr
      rw [upd_same]
      omega
    · rw [upd_other _ _ _ x hxr]
      exact inv.idxLe x hx
  · exact inv.heldNodup
  · exact inv.heldCap
  · exact inv.heldMem
  · intro x hx hn2 hm2
    obtain ⟨ha, hb, hcc, hd⟩ := inv.matchMem x hx hn2 hm2
    refine ⟨ha, hb, hcc, ?_⟩
    by_cases hxr : x = rn
    · subst hxr
      rw [upd_same]
      omega
    · rw [upd_other _ _ _ x hxr]
      exact hd
  · intro x hx hn2 hp2 hidx2 hne2
    by_cases hxr : x = rn
    · subst hxr
      rw [upd_same] at hidx2
      by_cases hh2 : hn2 = hn
      · subst hh2
        refine ⟨hcap2, ?_⟩
        intro m hm
        have hle := worstOf_le (C.hprefs hn2) (σ.held hn2) m hm
        rw [← hwn] at hle
        omega
      · have hidxne : (C.rprefs x).indexOf hn2 ≠ σ.idx x := by
          intro heq0
          apply hh2
          rw [← hidxof] at heq0
          exact (List.indexOf_inj hp2 hpmem).mp heq0
        have hidx3 : (C.rprefs x).indexOf hn2 < σ.idx x := by omega
        exact inv.rejected x hx hn2 hp2 hidx3
          (by rw [hrnone]; intro hc0; cases hc0)
    · rw [upd_other _ _ _ x hxr] at hidx2
      exact inv.rejected x hx hn2 hp2 hidx2 hne2

theorem stepRO_inv (C : AlgCtx) (wf : CtxWF C) (σ σ2 : ROState)
    (inv : ROInv C σ) (h : stepRO C σ = some σ2) : ROInv C σ2 := by
  unfold stepRO at h
  cases hf : findEligibleRO C σ with
  | none =>
    rw [hf] at h
    cases h
  | some rn =>
    rw [hf] at h
    dsimp only at h
    obtain ⟨hrmem, hrnone, hrlt⟩ := findEligibleRO_some C σ rn hf
    have hpmem : (C.rprefs rn).getD (σ.idx rn) "" ∈ C.rprefs rn := by
      rw [List.getD_eq_getElem (C.rprefs rn) "" hrlt]
      exact List.getElem_mem hrlt
    have hidxof :
        (C.rprefs rn).indexOf ((C.rprefs rn).getD (σ.idx rn) "") = σ.idx rn := by
      rw [List.getD_eq_getElem (C.rprefs rn) "" hrlt]
      exact nodup_indexOf_getElem (wf.rprefsNodup rn hrmem) _ hrlt
    split at h
    · rename_i hcap
      cases h
      exact ROInv_accept C wf σ inv rn _ hrmem hrnone hrlt hpmem hidxof hcap
    · rename_i hcap
      split at h
      · rename_i hpref
        cases h
        exact ROInv_bump C wf σ inv rn _ _ hrmem hrnone hrlt hpmem hidxof
          hcap rfl hpref
      · rename_i hpref
        cases h
        exact ROInv_reject C wf σ inv rn _ _ hrmem hrnone hrlt hpmem hidxof
          hcap rfl (Bool.eq_false_iff.mpr hpref)

theorem runRO_inv (C : AlgCtx) (wf : CtxWF C) :
    ∀ (n : Nat) (σ : ROState), ROInv C σ → ROInv C (runRO C n σ) := by
  intro n
  induction n with
  | zero =>
    intro σ hi
    exact hi
  | succ n ih =>
    intro σ hi
    rw [runRO]
    cases hs : stepRO C σ with
    | none => exact hi
    | some σ2 => exact ih σ2 (stepRO_inv C wf σ σ2 hi hs)

theorem stepRO_none_elig (C : AlgCtx) (σ : ROState)
    (h : stepRO C σ = none) : findEligibleRO C σ = none := by
  unfold stepRO at h
  cases hf : findEligibleRO C σ with
  | none => rfl
  | some rn =>
    rw [hf] at h
    dsimp only at h
    split at h
    · cases h
    · split at h
      · cases h
      · cases h

theorem RO_final_no_blocking (C : AlgCtx) (σ : ROState)
    (inv : ROInv C σ) (hfix : stepRO C σ = none) (rn hn : String)
    (hrn : rn ∈ C.resNames) (hhn : hn ∈ C.rprefs rn)
    (hRU : σ.rmatch rn = none ∨ ∃ m, σ.rmatch rn = some m ∧
      (C.rprefs rn).indexOf hn < (C.rprefs rn).indexOf m)
    (hHU : ((σ.held hn).length : Int) < C.capacity hn ∨
      ∃ m ∈ σ.held hn,
        (C.hprefs hn).indexOf rn < (C.hprefs hn).indexOf m) : False := by
  have hidxlen : (C.rprefs rn).indexOf hn < (C.rprefs rn).length :=
    List.indexOf_lt_length.mpr hhn
  have hrej : C.capacity hn ≤ ((σ.held hn).length : Int) ∧
      ∀ mn ∈ σ.held hn,
        (C.hprefs hn).indexOf mn < (C.hprefs hn).indexOf rn := by
    rcases hRU with hnone | ⟨m, hm, hpref⟩
    · have hfe := findEligibleRO_none C σ (stepRO_none_elig C σ hfix) rn hrn
      rcases hfe with hne | hge
      · exact absurd hnone hne
      · refine inv.rejected rn hrn hn hhn (by omega) ?_
        rw [hnone]
        intro hc0
        cases hc0
    · have hd := (inv.matchMem rn hrn m hm).2.2.2
      refine inv.rejected rn hrn hn hhn (by omega) ?_
      rw [hm]
      intro hc0
      injection hc0 with h2
      rw [h2] at hpref
      omega
  rcases hHU with hlt | ⟨m, hmem, hpref2⟩
  · have h0 := hrej.1
    omega
  · have h0 := hrej.2 m hmem
    omega

theorem findEligibleHO_some (C : AlgCtx) (σ : HOState) (hn : String)
    (h : findEligibleHO C σ = some hn) :
    hn ∈ C.hosNames ∧ ((σ.held hn).length : Int) < C.capacity hn ∧
      σ.hidx hn < (C.hprefs hn).length := by
  unfold findEligibleHO at h
  have h1 := List.mem_of_find?_eq_some h
  have h2 := List.find?_some h
  rw [Bool.and_eq_true] at h2
  exact ⟨h1, of_decide_eq_true h2.1, of_decide_eq_true h2.2⟩

theorem findEligibleHO_none (C : AlgCtx) (σ : HOState)
    (h : findEligibleHO C σ = none) :
    ∀ hn ∈ C.hosNames, ¬(((σ.held hn).length : Int) < C.capacity hn) ∨
      ¬(σ.hidx hn < (C.hprefs hn).length) := by
  intro hn hhn
  unfold findEligibleHO at h
  have h0 := List.find?_eq_none.mp h hn hhn
  by_cases hc : ((σ.held hn).length : Int) < C.capacity hn
  · right
    intro hlt
    exact h0 (by simp [hc, hlt])
  · left
    exact hc

theorem stepHO_idx (C : AlgCtx) (σ σ2 : HOState)
    (h : stepHO C σ = some σ2) :
    ∃ hn, findEligibleHO C σ = some hn ∧
      σ2.hidx = upd σ.hidx hn (σ.hidx hn + 1) := by
  unfold stepHO at h
  cases hf : findEligibleHO C σ with
  | none => rw [hf] at h; cases h
  | some hn =>
    rw [hf] at h
    dsimp only at h
    refine ⟨hn, rfl, ?_⟩
    split at h
    · cases h
      rfl
    · split at h
      · cases h
        rfl
      · cases h
        rfl

theorem stepHO_measure_lt (C : AlgCtx) (hnd : C.hosNames.Nodup)
    (σ σ2 : HOState) (h : stepHO C σ = some σ2) :
    measureHO C σ2 < measureHO C σ := by
  obtain ⟨hn, hf, hidx⟩ := stepHO_idx C σ σ2 h
  obtain ⟨hmem, hcap, hlt⟩ := findEligibleHO_some C σ hn hf
  unfold measureHO
  refine sum_map_lt _ _ hn _ hnd hmem ?_ ?_
  · rw [hidx, upd_same]
    omega
  · intro x hx hxa
    rw [hidx, upd_other _ _ _ x hxa]

theorem stepHO_none_of_measure (C : AlgCtx) (σ : HOState)
    (hm : measureHO C σ = 0) : stepHO C σ = none := by
  unfold stepHO
  cases hf : findEligibleHO C σ with
  | none => rfl
  | some hn =>
    exfalso
    obtain ⟨hmem, hcap, hlt⟩ := findEligibleHO_some C σ hn hf
    have h0 : (C.hprefs hn).length - σ.hidx hn ∈
        C.hosNames.map (fun hn => (C.hprefs hn).length - σ.hidx hn) :=
      List.mem_map.mpr ⟨hn, hmem, rfl⟩
    have h1 := List.sum_eq_zero_iff.mp hm _ h0
    omega

theorem runHO_fix (C : AlgCtx) (hnd : C.hosNames.Nodup) :
    ∀ (n : Nat) (σ : HOState), measureHO C σ ≤ n →
      stepHO C (runHO C n σ) = none := by
  intro n
  induction n with
  | zero =>
    intro σ hm
    show stepHO C σ = none
    exact stepHO_none_of_measure C σ (Nat.le_zero.mp hm)
  | succ n ih =>
    intro σ hm
    rw [runHO]
    cases hs : stepHO C σ with
    | none => exact hs
    | some σ2 =>
      have hlt := stepHO_measure_lt C hnd σ σ2 hs
      exact ih σ2 (by omega)

theorem stepHO_none_elig (C : AlgCtx) (σ : HOState)
    (h : stepHO C σ = none) : findEligibleHO C σ = none := by
  unfold stepHO at h
  cases hf : findEligibleHO C σ with
  | none => rfl
  | some hn =>
    rw [hf] at h
    dsimp only at h
    split at h
    · cases h
    · split at h
      · cases h
      · cases h

theorem HOInv_init (C : AlgCtx) (wf : CtxWF C) : HOInv C initHO := by
  refine ⟨?_, ?_, ?_, ?_, ?_, ?_⟩
  · intro hn h0
    exact Nat.zero_le _
  · intro hn h0
    exact List.nodup_nil
  · intro hn h0
    have := wf.capPos hn h0
    show ((List.length [] : Nat) : Int) ≤ _
    simp only [List.length_nil, Int.natCast_zero]
    omega
  · intro hn h0 rn hrn
    cases hrn
  · intro rn h0 hn hmm
    cases hmm
  · intro hn h0 rn hmem hidx
    exact absurd hidx (by simp [initHO])

theorem HOInv_accept (C : AlgCtx) (wf : CtxWF C) (σ : HOState)
    (inv : HOInv C σ) (hn rn : String)
    (hhos : hn ∈ C.hosNames)
    (hcap : ((σ.held hn).length : Int) < C.capacity hn)
    (hlt : σ.hidx hn < (C.hprefs hn).length)
    (hpmem : rn ∈ C.hprefs hn)
    (hidxof : (C.hprefs hn).indexOf rn = σ.hidx hn)
    (hrnone : σ.rmatch rn = none) :
    HOInv C { hidx := upd σ.hidx hn (σ.hidx hn + 1),
              rmatch := upd σ.rmatch rn (some hn),
              held := upd σ.held hn (rn :: σ.held hn) } := by
  obtain ⟨hres, hrh⟩ := wf.recipH hn hhos rn hpmem
  have hnotheld : ∀ x ∈ C.hosNames, rn ∉ σ.held x := by
    intro x hx hmem
    have h0 := (inv.heldMem x hx rn hmem).2.2.1
    rw [hrnone] at h0
    cases h0
  refine ⟨?_, ?_, ?_, ?_, ?_, ?_⟩ <;> dsimp only
  · intro x hx
    by_cases hxh : x = hn
    · subst hxh
      rw [upd_same]
      omega
    · rw [upd_other _ _ _ x hxh]
      exact inv.hidxLe x hx
  · intro x hx
    by_cases hxh : x = hn
    · subst hxh
      rw [upd_same]
      exact List.nodup_cons.mpr ⟨hnotheld x hx, inv.heldNodup x hx⟩
    · rw [upd_other _ _ _ x hxh]
      exact inv.heldNodup x hx
  · intro x hx
    by_cases hxh : x = hn
    · subst hxh
      rw [upd_same]
      show (((rn :: σ.held x).length : Nat) : Int) ≤ _
      rw [List.length_cons]
      push_cast
      omega
    · rw [upd_other _ _ _ x hxh]
      exact inv.heldCap x hx
  · intro x hx mn hmn
    by_cases hxh : x = hn
    · subst hxh
      rw [upd_same] at hmn
      rcases List.mem_cons.mp hmn with rfl | hmn2
      · refine ⟨hres, hpmem, by rw [upd_same], ?_⟩
        rw [upd_same, hidxof]
        omega
      · obtain ⟨ha, hb, hcc, hd⟩ := inv.heldMem x hx mn hmn2
        have hmr : mn ≠ rn := by
          intro h0
          rw [h0, hrnone] at hcc
          cases hcc
        refine ⟨ha, hb, ?_, ?_⟩
        · rw [upd_other _ _ _ mn hmr]
          exact hcc
        · rw [upd_same]
          omega
    · rw [upd_other _ _ _ x hxh] at hmn
      obtain ⟨ha, hb, hcc, hd⟩ := inv.heldMem x hx mn hmn
      have hmr : mn ≠ rn := by
        intro h0
        rw [h0, hrnone] at hcc
        cases hcc
      refine ⟨ha, hb, ?_, ?_⟩
      · rw [upd_other _ _ _ mn hmr]
        exact hcc
      · rw [upd_other _ _ _ x hxh]
        exact hd
  · intro x hx hn2 hm2
    by_cases hxr : x = rn
    · subst hxr
      rw [upd_same] at hm2
      cases hm2
      refine ⟨hhos, ?_, hrh⟩
      rw [upd_same]
      exact List.mem_cons_self _ _
    · rw [upd_other _ _ _ x hxr] at hm2
      obtain ⟨ha, hb, hcc⟩ := inv.matchMem x hx hn2 hm2
      refine ⟨ha, ?_, hcc⟩
      by_cases hh2 : hn2 = hn
      · subst hh2
        rw [upd_same]
        exact List.mem_cons_of_mem _ hb
      · rw [upd_other _ _ _ hn2 hh2]
        exact hb
  · intro hh hhh m hmp hidxm
    by_cases hhn : hh = hn
    · subst hhn
      rw [upd_same] at hidxm
      by_cases hmrn : m = rn
      · subst hmrn
        exact ⟨hh, by rw [upd_same], Or.inl rfl⟩
      · have hne1 : (C.hprefs hh).indexOf m ≠ σ.hidx hh := by
          intro he
          apply hmrn
          rw [← hidxof] at he
          exact (List.indexOf_inj hmp hpmem).mp he
        have hidx3 : (C.hprefs hh).indexOf m < σ.hidx hh := by omega
        obtain ⟨h2, h2m, hdisj⟩ := inv.proposed hh hhh m hmp hidx3
        exact ⟨h2, by rw [upd_other _ _ _ m hmrn]; exact h2m, hdisj⟩
    · rw [upd_other _ _ _ hh hhn] at hidxm
      obtain ⟨h2, h2m, hdisj⟩ := inv.proposed hh hhh m hmp hidxm
      have hmrn : m ≠ rn := by
        intro h0
        rw [h0, hrnone] at h2m
        cases h2m
      exact ⟨h2, by rw [upd_other _ _ _ m hmrn]; exact h2m, hdisj⟩

theorem HOInv_displace (C : AlgCtx) (wf : CtxWF C) (σ : HOState)
    (inv : HOInv C σ) (hn rn hOld : String)
    (hhos : hn ∈ C.hosNames)
    (hcap : ((σ.held hn).length : Int) < C.capacity hn)
    (hlt : σ.hidx hn < (C.hprefs hn).length)
    (hpmem : rn ∈ C.hprefs hn)
    (hidxof : (C.hprefs hn).indexOf rn = σ.hidx hn)
    (hm : σ.rmatch rn = some hOld)
    (hpref : prefersIn (C.rprefs rn) hn hOld = true) :
    HOInv C { hidx := upd σ.hidx hn (σ.hidx hn + 1),
              rmatch := upd σ.rmatch rn (some hn),
              held := upd (upd σ.held hOld ((σ.held hOld).erase rn)) hn
                (rn :: σ.held hn) } := by
  obtain ⟨hres, hrh⟩ := wf.recipH hn hhos rn hpmem
  obtain ⟨hOldHos, hrnInOld, hOldPref⟩ := inv.matchMem rn hres hOld hm
  have hprefi : (C.rprefs rn).indexOf hn < (C.rprefs rn).indexOf hOld :=
    of_decide_eq_true hpref
  have hOldne : hOld ≠ hn := by
    intro h0
    rw [h0] at hprefi
    omega
  have hrnn : rn ∉ σ.held hn := by
    intro h0
    have h1 := (inv.heldMem hn hhos rn h0).2.2.1
    rw [hm] at h1
    injection h1 with h2
    exact hOldne h2
  refine ⟨?_, ?_, ?_, ?_, ?_, ?_⟩ <;> dsimp only
  · intro x hx
    by_cases hxh : x = hn
    · subst hxh
      rw [upd_same]
      omega
    · rw [upd_other _ _ _ x hxh]
      exact inv.hidxLe x hx
  · intro x hx
    by_cases hxh : x = hn
    · subst hxh
      rw [upd_same]
      exact List.nodup_cons.mpr ⟨hrnn, inv.heldNodup x hx⟩
    · rw [upd_other _ _ _ x hxh]
      by_cases hxo : x = hOld
      · subst hxo
        rw [upd_same]
        exact (inv.heldNodup x hx).erase rn
      · rw [upd_other _ _ _ x hxo]
        exact inv.heldNodup x hx
  · intro x hx
    by_cases hxh : x = hn
    · subst hxh
      rw [upd_same]
      show (((rn :: σ.held x).length : Nat) : Int) ≤ _
      rw [List.length_cons]
      push_cast
      omega
    · rw [upd_other _ _ _ x hxh]
      by_cases hxo : x = hOld
      · subst hxo
        rw [upd_same]
        have h0 := List.length_erase_le rn (σ.held x)
        have h1 := inv.heldCap x hx
        omega
      · rw [upd_other _ _ _ x hxo]
        exact inv.heldCap x hx
  · intro x hx mn hmn
    by_cases hxh : x = hn
    · subst hxh
      rw [upd_same] at hmn
      rcases List.mem_cons.mp hmn with rfl | hmn2
      · refine ⟨hres, hpmem, by rw [upd_same], ?_⟩
        rw [upd_same, hidxof]
        omega
      · obtain ⟨ha, hb, hcc, hd⟩ := inv.heldMem x hx mn hmn2
        have hmr : mn ≠ rn := fun h0 => hrnn (h0 ▸ hmn2)
        refine ⟨ha, hb, ?_, ?_⟩
        · rw [upd_other _ _ _ mn hmr]
          exact hcc
        · rw [upd_same]
          omega
    · rw [upd_other _ _ _ x hxh] at hmn
      by_cases hxo : x = hOld
      · subst hxo
        rw [upd_same] at hmn
        obtain ⟨hmr, hmn2⟩ :=
          (List.Nodup.mem_erase_iff (inv.heldNodup x hx)).mp hmn
        obtain ⟨ha, hb, hcc, hd⟩ := inv.heldMem x hx mn hmn2
        refine ⟨ha, hb, ?_, ?_⟩
        · rw [upd_other _ _ _ mn hmr]
          exact hcc
        · rw [upd_other _ _ _ x hxh]
          exact hd
      · rw [upd_other _ _ _ x hxo] at hmn
        obtain ⟨ha, hb, hcc, hd⟩ := inv.heldMem x hx mn hmn
        have hmr : mn ≠ rn := by
          intro h0
          rw [h0, hm] at hcc
          injection hcc with h2
          exact hxo h2.symm
        refine ⟨ha, hb, ?_, ?_⟩
        · rw [upd_other _ _ _ mn hmr]
          exact hcc
        · rw [upd_other _ _ _ x hxh]
          exact hd
  · intro x hx hn2 hm2
    by_cases hxr : x = rn
    · subst hxr
      rw [upd_same] at hm2
      cases hm2
      refine ⟨hhos, ?_, hrh⟩
      rw [upd_same]
      exact List.mem_cons_self _ _
    · rw [upd_other _ _ _ x hxr] at hm2
      obtain ⟨ha, hb, hcc⟩ := inv.matchMem x hx hn2 hm2
      refine ⟨ha, ?_, hcc⟩
      by_cases hh2 : hn2 = hn
      · subst hh2
        rw [upd_same]
        exact List.mem_cons_of_mem _ hb
      · rw [upd_other _ _ _ hn2 hh2]
        by_cases hho : hn2 = hOld
        · subst hho
          rw [upd_same]
          exact (List.mem_erase_of_ne hxr).mpr hb
        · rw [upd_other _ _ _ hn2 hho]
          exact hb
  · intro hh hhh m hmp hidxm
    by_cases hhn : hh = hn
    · subst hhn
      rw [upd_same] at hidxm
      by_cases hmrn : m = rn
      · subst hmrn
        exact ⟨hh, by rw [upd_same], Or.inl rfl⟩
      · have hne1 : (C.hprefs hh).indexOf m ≠ σ.hidx hh := by
          intro he
          apply hmrn
          rw [← hidxof] at he
          exact (List.indexOf_inj hmp hpmem).mp he
        have hidx3 : (C.hprefs hh).indexOf m < σ.hidx hh := by omega
        obtain ⟨h2, h2m, hdisj⟩ := inv.proposed hh hhh m hmp hidx3
        exact ⟨h2, by rw [upd_other _ _ _ m hmrn]; exact h2m, hdisj⟩
    · rw [upd_other _ _ _ hh hhn] at hidxm
      obtain ⟨h2, h2m, hdisj⟩ := inv.proposed hh hhh m hmp hidxm
      by_cases hmrn : m = rn
      · subst hmrn
        rw [hm] at h2m
        injection h2m with he
        rw [← he] at hdisj
        refine ⟨hn, by rw [upd_same], Or.inr ?_⟩
        rcases hdisj with heq | hlt2
        · rw [heq] at hprefi
          exact hprefi
        · exact Nat.lt_trans hprefi hlt2
      · exact ⟨h2, by rw [upd_other _ _ _ m hmrn]; exact h2m, hdisj⟩

theorem HOInv_keep (C : AlgCtx) (wf : CtxWF C) (σ : HOState)
    (inv : HOInv C σ) (hn rn hOld : String)
    (hhos : hn ∈ C.hosNames)
    (hcap : ((σ.held hn).length : Int) < C.capacity hn)
    (hlt : σ.hidx hn < (C.hprefs hn).length)
    (hpmem : rn ∈ C.hprefs hn)
    (hidxof : (C.hprefs hn).indexOf rn = σ.hidx hn)
    (hm : σ.rmatch rn = some hOld)
    (hpref : prefersIn (C.rprefs rn) hn hOld = false) :
    HOInv C { hidx := upd σ.hidx hn (σ.hidx hn + 1),
              rmatch := σ.rmatch, held := σ.held } := by
  obtain ⟨hres, hrh⟩ := wf.recipH hn hhos rn hpmem
  obtain ⟨hOldHos, hrnInOld, hOldPref⟩ := inv.matchMem rn hres hOld hm
  have hprefle : ¬((C.rprefs rn).indexOf hn < (C.rprefs rn).indexOf hOld) :=
    of_decide_eq_false hpref
  refine ⟨?_, ?_, ?_, ?_, ?_, ?_⟩ <;> dsimp only
  · intro x hx
    by_cases hxh : x = hn
    · subst hxh
      rw [upd_same]
      omega
    · rw [upd_other _ _ _ x hxh]
      exact inv.hidxLe x hx
  · exact inv.heldNodup
  · exact inv.heldCap
  · intro x hx mn hmn
    obtain ⟨ha, hb, hcc, hd⟩ := inv.heldMem x hx mn hmn
    refine ⟨ha, hb, hcc, ?_⟩
    by_cases hxh : x = hn
    · subst hxh
      rw [upd_same]
      omega
    · rw [upd_other _ _ _ x hxh]
      exact hd
  · exact inv.matchMem
  · intro hh hhh m hmp hidxm
    by_cases hhn : hh = hn
    · subst hhn
      rw [upd_same] at hidxm
      by_cases hmrn : m = rn
      · subst hmrn
        refine ⟨hOld, hm, ?_⟩
        by_cases heq : (C.rprefs m).indexOf hOld = (C.rprefs m).indexOf hh
        · exact Or.inl ((List.indexOf_inj hOldPref hrh).mp heq)
        · exact Or.inr (by omega)
      · have hne1 : (C.hprefs hh).indexOf m ≠ σ.hidx hh := by
          intro he
          apply hmrn
          rw [← hidxof] at he
          exact (List.indexOf_inj hmp hpmem).mp he
        have hidx3 : (C.hprefs hh).indexOf m < σ.hidx hh := by omega
        exact inv.proposed hh hhh m hmp hidx3
    · rw [upd_other _ _ _ hh hhn] at hidxm
      exact inv.proposed hh hhh m hmp hidxm

theorem stepHO_inv (C : AlgCtx) (wf : CtxWF C) (σ σ2 : HOState)
    (inv : HOInv C σ) (h : stepHO C σ = some σ2) : HOInv C σ2 := by
  unfold stepHO at h
  cases hf : findEligibleHO C σ with
  | none =>
    rw [hf] at h
    cases h
  | some hn =>
    rw [hf] at h
    dsimp only at h
    obtain ⟨hhos, hcap, hlt⟩ := findEligibleHO_some C σ hn hf
    have hpmem : (C.hprefs hn).getD (σ.hidx hn) "" ∈ C.hprefs hn := by
      rw [List.getD_eq_getElem (C.hprefs hn) "" hlt]
      exact List.getElem_mem hlt
    have hidxof :
        (C.hprefs hn).indexOf ((C.hprefs hn).getD (σ.hidx hn) "") =
          σ.hidx hn := by
      rw [List.getD_eq_getElem (C.hprefs hn) "" hlt]
      exact nodup_indexOf_getElem (wf.hprefsNodup hn hhos) _ hlt
    cases hmm : σ.rmatch ((C.hprefs hn).getD (σ.hidx hn) "") with
    | none =>
      rw [hmm] at h
      dsimp only at h
      cases h
      exact HOInv_accept C wf σ inv hn _ hhos hcap hlt hpmem hidxof hmm
    | some hOld =>
      rw [hmm] at h
      dsimp only at h
      split at h
      · rename_i hpref
        cases h
        exact HOInv_displace C wf σ inv hn _ hOld hhos hcap hlt hpmem
          hidxof hmm hpref
      · rename_i hpref
        cases h
        exact HOInv_keep C wf σ inv hn _ hOld hhos hcap hlt hpmem hidxof hmm
          (Bool.eq_false_iff.mpr hpref)

theorem runHO_inv (C : AlgCtx) (wf : CtxWF C) :
    ∀ (n : Nat) (σ : HOState), HOInv C σ → HOInv C (runHO C n σ) := by
  intro n
  induction n with
  | zero =>
    intro σ hi
    exact hi
  | succ n ih =>
    intro σ hi
    rw [runHO]
    cases hs : stepHO C σ with
    | none => exact hi
    | some σ2 => exact ih σ2 (stepHO_inv C wf σ σ2 hi hs)

theorem HO_final_no_blocking (C : AlgCtx) (σ : HOState)
    (inv : HOInv C σ) (hfix : stepHO C σ = none) (rn hn : String)
    (hhn : hn ∈ C.hosNames) (hrp : rn ∈ C.hprefs hn)
    (hRU : σ.rmatch rn = none ∨ ∃ m, σ.rmatch rn = some m ∧
      (C.rprefs rn).indexOf hn < (C.rprefs rn).indexOf m)
    (hHU : ((σ.held hn).length : Int) < C.capacity hn ∨
      ∃ m ∈ σ.held hn,
        (C.hprefs hn).indexOf rn < (C.hprefs hn).indexOf m) : False := by
  have hidxr : (C.hprefs hn).indexOf rn < σ.hidx hn := by
    rcases hHU with hlt | ⟨m, hmem, hp⟩
    · have hfe := findEligibleHO_none C σ (stepHO_none_elig C σ hfix) hn hhn
      rcases hfe with hnc | hni
      · exact absurd hlt hnc
      · have := List.indexOf_lt_length.mpr hrp
        omega
    · have hd := (inv.heldMem hn hhn m hmem).2.2.2
      omega
  obtain ⟨h2, hm2, hdisj⟩ := inv.proposed hn hhn rn hrp hidxr
  rcases hRU with hnone | ⟨m, hm, hpref⟩
  · rw [hnone] at hm2
    cases hm2
  · rw [hm] at hm2
    injection hm2 with he
    rw [← he] at hdisj
    rcases hdisj with heq | hlt2
    · rw [heq] at hpref
      omega
    · omega

theorem check_stability_of_no_blocking (g : HospitalResident)
    (hnb : ∀ r ∈ g.residents, ∀ h ∈ g.hospitals, ¬ Blocking r h) :
    (g.check_stability).2 = true ∧
      (g.check_stability).1.blocking_pairs = some [] := by
  have hbps : (g.residents.map (fun r =>
      (g.hospitals.filter (fun h =>
        check_mutual_preference r h && check_resident_unhappy r h &&
          check_hospital_unhappy r h)).map
        (fun h => (r.name, h.name)))).flatten = [] := by
    refine List.flatten_eq_nil_iff.mpr ?_
    intro a ha
    obtain ⟨r, hr, rfl⟩ := List.mem_map.mp ha
    have hfil : g.hospitals.filter (fun h =>
        check_mutual_preference r h && check_resident_unhappy r h &&
          check_hospital_unhappy r h) = [] := by
      refine List.filter_eq_nil_iff.mpr ?_
      intro h hh hcb
      exact hnb r hr h hh ((blocking_bool_iff r h).mp hcb)
    rw [hfil]
    rfl
  constructor
  · show ((g.residents.map _).flatten).isEmpty = true
    rw [hbps]
    rfl
  · show some ((g.residents.map _).flatten) = some []
    rw [hbps]

theorem solve_no_blocking_aux (g : HospitalResident)
    (hndr : (g.residents.map Resident.name).Nodup)
    (hndh : (g.hospitals.map Hospital.name).Nodup)
    (rmatchF : String → Option String) (heldF : String → List String)
    (hkey : ∀ rn hn, rn ∈ (ctxOf g).resNames → hn ∈ (ctxOf g).hosNames →
      hn ∈ (ctxOf g).rprefs rn → rn ∈ (ctxOf g).hprefs hn →
      (rmatchF rn = none ∨ ∃ m, rmatchF rn = some m ∧
        ((ctxOf g).rprefs rn).indexOf hn < ((ctxOf g).rprefs rn).indexOf m) →
      (((heldF hn).length : Int) < (ctxOf g).capacity hn ∨
        ∃ m ∈ heldF hn,
          ((ctxOf g).hprefs hn).indexOf rn <
            ((ctxOf g).hprefs hn).indexOf m) →
      False) :
    ∀ r2 ∈ g.residents.map (fun r => { r with matching := rmatchF r.name }),
      ∀ h2 ∈ g.hospitals.map (fun h => { h with matching := heldF h.name }),
        ¬ Blocking r2 h2 := by
  intro r2 hr2 h2 hh2 hb
  obtain ⟨r, hr, rfl⟩ := List.mem_map.mp hr2
  obtain ⟨h, hh, rfl⟩ := List.mem_map.mp hh2
  obtain ⟨⟨hm1, hm2⟩, hru, hhu⟩ := hb
  have hrn : r.name ∈ (ctxOf g).resNames := List.mem_map.mpr ⟨r, hr, rfl⟩
  have hhn : h.name ∈ (ctxOf g).hosNames := List.mem_map.mpr ⟨h, hh, rfl⟩
  have hrp := ctx_rprefs_eq g hndr r hr
  have hhp := ctx_hprefs_eq g hndh h hh
  have hcp := ctx_capacity_eq g hndh h hh
  refine hkey r.name h.name hrn hhn ?_ ?_ ?_ ?_
  · rw [hrp]
    exact hm2
  · rw [hhp]
    exact hm1
  · rw [hrp]
    exact hru
  · rw [hhp, hcp]
    exact hhu

/-- C1: for every well-formed instance (distinct player names,
duplicate-free preference lists, every preference entry mutually
reciprocated, all hospital capacities at least one), running `solve` with
either orientation and then `check_stability` reports the matching stable,
with an empty blocking-pair list. -/
theorem solve_stable (g : HospitalResident) (wf : WFGame g) (opt : Optimal) :
    ((g.solve opt).check_stability).2 = true ∧
      ((g.solve opt).check_stability).1.blocking_pairs = some [] := by
  have cwf : CtxWF (ctxOf g) := ctxWF_of_WFGame g wf
  obtain ⟨hndr, hndh, hrpn, hhpn, hrecR, hrecH, hcap⟩ := wf
  have hnb : ∀ r2 ∈ (g.solve opt).residents,
      ∀ h2 ∈ (g.solve opt).hospitals, ¬ Blocking r2 h2 := by
    cases opt with
    | resident =>
      have hfix := runRO_fix (ctxOf g) cwf.resNodup
        (measureRO (ctxOf g) initRO) initRO (le_refl _)
      have hinv := runRO_inv (ctxOf g) cwf
        (measureRO (ctxOf g) initRO) initRO (ROInv_init (ctxOf g) cwf)
      exact solve_no_blocking_aux g hndr hndh
        (solveRO (ctxOf g)).rmatch (solveRO (ctxOf g)).held
        (fun rn hn hrn hhn hpr hph hru hhu =>
          RO_final_no_blocking (ctxOf g) (solveRO (ctxOf g)) hinv hfix
            rn hn hrn hpr hru hhu)
    | hospital =>
      have hfix := runHO_fix (ctxOf g) cwf.hosNodup
        (measureHO (ctxOf g) initHO) initHO (le_refl _)
      have hinv := runHO_inv (ctxOf g) cwf
        (measureHO (ctxOf g) initHO) initHO (HOInv_init (ctxOf g) cwf)
      exact solve_no_blocking_aux g hndr hndh
        (solveHO (ctxOf g)).rmatch (solveHO (ctxOf g)).held
        (fun rn hn hrn hhn hpr hph hru hhu =>
          HO_final_no_blocking (ctxOf g) (solveHO (ctxOf g)) hinv hfix
            rn hn hhn hph hru hhu)
  exact check_stability_of_no_blocking (g.solve opt) hnb

/-- Witness for C1: on the concrete two-by-two instance, both orientations
of the solver produce a matching that the stability checker accepts with
no blocking pairs. -/
theorem solve_stable_witness :
    WFGame g22 ∧
      (((g22.solve Optimal.resident).check_stability).2 = true ∧
        ((g22.solve Optimal.resident).check_stability).1.blocking_pairs =
          some []) ∧
      (((g22.solve Optimal.hospital).check_stability).2 = true ∧
        ((g22.solve Optimal.hospital).check_stability).1.blocking_pairs =
          some []) :=
  ⟨by unfold WFGame; decide, solve_stable g22 (by unfold WFGame; decide)
    Optimal.resident,
    solve_stable g22 (by unfold WFGame; decide) Optimal.hospital⟩

theorem updNat_other {α : Type} (f : Nat → α) (a : Nat) (v : α) (x : Nat)
    (hx : x ≠ a) : updNat f a v x = f x := by
  unfold updNat
  rw [if_neg hx]

/-- C7: the constructor deep-copies the caller's collections into fresh
objects, so mutating any of the caller's original resident or hospital
objects after construction changes neither the instance read back from
the heap (in particular its internal preference lists) nor the result of
a later solve. -/
theorem construct_isolated (σ : Heap) (callerRes callerHos : List Nat)
    (clean : Bool)
    (hcr : ∀ b ∈ callerRes, b < σ.next)
    (hch : ∀ b ∈ callerHos, b < σ.next)
    (a : Nat) (hmem : a ∈ callerRes ∨ a ∈ callerHos)
    (r : Resident) (h : Hospital) :
    gameOf (writeRes (writeHos (constructGame σ callerRes callerHos clean).2
        a h) a r) (constructGame σ callerRes callerHos clean).1 =
      gameOf (constructGame σ callerRes callerHos clean).2
        (constructGame σ callerRes callerHos clean).1 ∧
    ∀ opt, ((gameOf (writeRes (writeHos
        (constructGame σ callerRes callerHos clean).2 a h) a r)
        (constructGame σ callerRes callerHos clean).1).1.solve opt) =
      ((gameOf (constructGame σ callerRes callerHos clean).2
        (constructGame σ callerRes callerHos clean).1).1.solve opt) := by
  have ha : a < σ.next := by
    rcases hmem with h1 | h1
    · exact hcr a h1
    · exact hch a h1
  have hres_eq :
      ((constructGame σ callerRes callerHos clean).1.resAddrs).map
        (writeRes (writeHos (constructGame σ callerRes callerHos clean).2
          a h) a r).res =
      ((constructGame σ callerRes callerHos clean).1.resAddrs).map
        (constructGame σ callerRes callerHos clean).2.res := by
    refine List.map_congr_left ?_
    intro b hb
    dsimp only [constructGame] at hb
    obtain ⟨i, hi, rfl⟩ := List.mem_map.mp hb
    show updNat (constructGame σ callerRes callerHos clean).2.res a r _ = _
    exact updNat_other _ _ _ _ (by omega)
  have hhos_eq :
      ((constructGame σ callerRes callerHos clean).1.hosAddrs).map
        (writeRes (writeHos (constructGame σ callerRes callerHos clean).2
          a h) a r).hos =
      ((constructGame σ callerRes callerHos clean).1.hosAddrs).map
        (constructGame σ callerRes callerHos clean).2.hos := by
    refine List.map_congr_left ?_
    intro b hb
    dsimp only [constructGame] at hb
    obtain ⟨i, hi, rfl⟩ := List.mem_map.mp hb
    show updNat (constructGame σ callerRes callerHos clean).2.hos a h _ = _
    exact updNat_other _ _ _ _ (by omega)
  have hg : gameOf (writeRes (writeHos
      (constructGame σ callerRes callerHos clean).2 a h) a r)
      (constructGame σ callerRes callerHos clean).1 =
      gameOf (constructGame σ callerRes callerHos clean).2
        (constructGame σ callerRes callerHos clean).1 := by
    dsimp only [gameOf]
    rw [hres_eq, hhos_eq]
  exact ⟨hg, fun opt => by rw [hg]⟩

/-- Witness for C7: after constructing a game from caller addresses 0 and
1, overwriting the caller's resident object at address 0 leaves the
instance and its solve results unchanged. -/
theorem construct_isolated_witness :
    (∀ b ∈ [0], b < heap0.next) ∧ (∀ b ∈ [1], b < heap0.next) ∧
      ((0 : Nat) ∈ [0] ∨ (0 : Nat) ∈ [1]) ∧
      (gameOf (writeRes (writeHos (constructGame heap0 [0] [1] true).2
          0 { name := "H9", capacity := 0, prefs := [], matching := [] })
          0 { name := "R9", prefs := [], matching := none })
          (constructGame heap0 [0] [1] true).1 =
        gameOf (constructGame heap0 [0] [1] true).2
          (constructGame heap0 [0] [1] true).1) :=
  ⟨by decide, by decide, Or.inl (by decide),
    (construct_isolated heap0 [0] [1] true (by decide) (by decide) 0
      (Or.inl (by decide))
      { name := "R9", prefs := [], matching := none }
      { name := "H9", capacity := 0, prefs := [], matching := [] }).1⟩

/-- Witness for C10: a resident ranking the unknown hospital H9 makes the
dictionary constructor fail with a key-lookup error. -/
theorem create_from_dictionaries_dangling_fails_witness :
    make_players [("R1", ["H9"])] [("H1", ["R1"])] [("H1", (1 : Int))] =
        none ∧
      create_from_dictionaries [("R1", ["H9"])] [("H1", ["R1"])]
        [("H1", (1 : Int))] true = none :=
  create_from_dictionaries_dangling_fails
    [("R1", ["H9"])] [("H1", ["R1"])] [("H1", (1 : Int))] true
    (Or.inl (by decide))

end HR
